import Mathlib

/-!
Verification development for the cgmd repository: a shallow embedding of the
CSV ingestion pipeline (`music/management/commands/import_sheerpluck.py`),
the duplicate-work reconciliation command
(`music/management/commands/deduplicate_works.py`) and the string/date
cleaning utilities (`music/utils.py`), together with theorems settling the
behavioural claims about them.

Modelling conventions:
* Python strings are Lean `String`s; `str.strip` and friends are modelled on
  the ASCII whitespace characters, which are the only whitespace characters
  occurring in this development.
* Database rows are records carrying an explicit numeric `id` (the primary
  key); a table is the list of its rows in insertion (primary-key) order.
* Django's `QuerySet.first()` on a filtered table is modelled as the first
  matching row in insertion order.  The model Meta orderings involved
  (`Composer: [last_name, first_name]`, `Work: [title]`) only use fields the
  pipeline never mutates, and rows tied on the ordering key are returned in a
  database-unspecified order, which SQLite realises as insertion order; no
  claim below depends on which of several matching rows is chosen.
* `unicodedata.normalize('NFKD', ...)` followed by the ASCII
  encode/decode round-trip is modelled by `asciiFoldChar`, a finite fragment
  of the NFKD decomposition-and-fold map: it is exact on ASCII and on the
  Latin-1 accented letters listed, and treats all other characters as
  dropped.  Only tabulated characters are ever evaluated by the theorems.
-/

/-- ASCII whitespace characters: the characters Python's `str.strip()` and
the regex class `\s` recognise within the ASCII range. -/
def pySpace (c : Char) : Bool :=
  c = ' ' || c = '\t' || c = '\n' || c = '\r' || c = '\x0b' || c = '\x0c'

/-- Python `str.strip()`: drop leading and trailing whitespace. -/
def pyStrip (s : String) : String :=
  String.mk (((s.data.dropWhile pySpace).reverse.dropWhile pySpace).reverse)

/-- Python `str.lower()` restricted to ASCII and Latin-1 letters (the only
characters this development evaluates it on). -/
def pyLowerChar (c : Char) : Char :=
  if 'A' ≤ c && c ≤ 'Z' then Char.ofNat (c.toNat + 32)
  else if 0xC0 ≤ c.toNat && c.toNat ≤ 0xDE && c.toNat != 0xD7 then Char.ofNat (c.toNat + 32)
  else c

/-- Python `str.lower()` on a whole string. -/
def pyLower (s : String) : String :=
  String.mk (s.data.map pyLowerChar)

/-- Fragment of `unicodedata.normalize('NFKD', ·)` followed by
`.encode('ASCII', 'ignore')`: ASCII characters map to themselves, the listed
Latin accented letters decompose to their base letter with the combining
mark dropped, every other character is dropped. -/
def asciiFoldChar (c : Char) : List Char :=
  if c.toNat < 128 then [c]
  else if c = 'À' || c = 'Á' || c = 'Â' || c = 'Ã' || c = 'Ä' || c = 'Å' then ['A']
  else if c = 'à' || c = 'á' || c = 'â' || c = 'ã' || c = 'ä' || c = 'å' then ['a']
  else if c = 'È' || c = 'É' || c = 'Ê' || c = 'Ë' then ['E']
  else if c = 'è' || c = 'é' || c = 'ê' || c = 'ë' then ['e']
  else if c = 'Ì' || c = 'Í' || c = 'Î' || c = 'Ï' then ['I']
  else if c = 'ì' || c = 'í' || c = 'î' || c = 'ï' then ['i']
  else if c = 'Ò' || c = 'Ó' || c = 'Ô' || c = 'Õ' || c = 'Ö' then ['O']
  else if c = 'ò' || c = 'ó' || c = 'ô' || c = 'õ' || c = 'ö' then ['o']
  else if c = 'Ù' || c = 'Ú' || c = 'Û' || c = 'Ü' then ['U']
  else if c = 'ù' || c = 'ú' || c = 'û' || c = 'ü' then ['u']
  else if c = 'Ñ' then ['N'] else if c = 'ñ' then ['n']
  else if c = 'Ç' then ['C'] else if c = 'ç' then ['c']
  else if c = 'Ý' then ['Y'] else if c = 'ý' || c = 'ÿ' then ['y']
  else []

/-- Accent folding of a whole string: NFKD decompose, drop non-ASCII. -/
def asciiFold (s : String) : String :=
  String.mk (s.data.flatMap asciiFoldChar)

/-- Embeds `Command._normalize_string` of `import_sheerpluck.py`: NFKD
normalise, drop non-ASCII, lowercase (no trimming). -/
def normalizeString (text : String) : String :=
  if text = "" then "" else pyLower (asciiFold text)

/-- Embeds `normalize_name` of `music/utils.py`: NFKD normalise, drop
non-ASCII, lowercase, strip. -/
def normalize_name (name : String) : String :=
  if name = "" then "" else pyStrip (pyLower (asciiFold name))

/-- Decimal digit test, the ASCII part of the regex class `\d`. -/
def pyDigit (c : Char) : Bool := '0' ≤ c && c ≤ '9'

/-- Numeric value of a list of decimal digit characters. -/
def digitsToNat (cs : List Char) : Nat :=
  cs.foldl (fun acc c => acc * 10 + (c.toNat - '0'.toNat)) 0

/-- Python `int(s)` on an already-stripped string: an optional sign followed
by at least one decimal digit; any other shape raises `ValueError`, which the
callers turn into `None`.  (Underscore digit separators and non-ASCII digits
are not modelled; no input in this development uses them.) -/
def pyInt (s : String) : Option Int :=
  match s.data with
  | [] => none
  | '-' :: ds => if ds ≠ [] && ds.all pyDigit then some (-(digitsToNat ds : Int)) else none
  | '+' :: ds => if ds ≠ [] && ds.all pyDigit then some ((digitsToNat ds : Int)) else none
  | ds => if ds.all pyDigit then some ((digitsToNat ds : Int)) else none

/-- Embeds `Command._parse_year` of `import_sheerpluck.py`: `None` for an
empty or all-whitespace string, otherwise `int(s.strip())` with parse
failures mapped to `None`. -/
def parseYear (s : String) : Option Int :=
  if s = "" || pyStrip s = "" then none else pyInt (pyStrip s)

/-- One substitution step of `re.sub(r'^(ca?\.?\s*)', '', s, flags=IGNORECASE)`:
a leading `c`/`C`, an optional `a`/`A`, an optional dot, then any run of
whitespace.  Anchored at the start, so at most one substitution happens. -/
def stripCaPrefix (cs : List Char) : List Char :=
  match cs with
  | [] => []
  | c :: rest =>
    if c = 'c' || c = 'C' then
      let r1 := match rest with
        | a :: r => if a = 'a' || a = 'A' then r else rest
        | [] => rest
      let r2 := match r1 with
        | '.' :: r => r
        | _ => r1
      r2.dropWhile pySpace
    else c :: rest

/-- Embeds `re.sub(r'[?*]$', '', s)`: drop one trailing `?` or `*`. -/
def stripTrailingQual (cs : List Char) : List Char :=
  match cs.reverse with
  | c :: rest => if c = '?' || c = '*' then rest.reverse else cs
  | [] => cs

/-- Tests whether a character list starts with four decimal digits. -/
def fourDigitsAt (cs : List Char) : Bool :=
  match cs with
  | c1 :: c2 :: c3 :: c4 :: _ => pyDigit c1 && pyDigit c2 && pyDigit c3 && pyDigit c4
  | _ => false

/-- Embeds `re.search(r'\d{4}', s)`: the leftmost window of four consecutive
decimal digits. -/
def findFourDigits : List Char → Option (List Char)
  | [] => none
  | c :: rest =>
    if fourDigitsAt (c :: rest) then some ((c :: rest).take 4)
    else findFourDigits rest

/-- Embeds `clean_year` of `music/utils.py`: strip whitespace, strip a
leading `ca.`/`c.` qualifier (case-insensitive), strip one trailing `?` or
`*`, search for the first four-digit window, and accept only values in
`[1000, 2100]`. -/
def clean_year (s : String) : Option Int :=
  if s = "" then none
  else
    match findFourDigits (stripTrailingQual (stripCaPrefix (pyStrip s).data)) with
    | some ds =>
      if 1000 ≤ (digitsToNat ds : Int) && (digitsToNat ds : Int) ≤ 2100 then
        some ((digitsToNat ds : Int))
      else none
    | none => none

/-- Python truthiness of an optional integer (`None` and `0` are falsy). -/
def pyTruthyInt (o : Option Int) : Bool :=
  match o with
  | none => false
  | some v => v != 0

/-- Embeds `is_living_composer` of `music/utils.py`.  `currentYear` stands
for `datetime.now().year`, an external input made explicit. -/
def is_living_composer (currentYear : Int) (birthYear deathYear : Option Int) : Bool :=
  if pyTruthyInt deathYear then false
  else if !(pyTruthyInt birthYear) then false
  else
    match birthYear with
    | some b => decide (b > 1900) && decide (currentYear - b < 100)
    | none => false

/-- Embeds `deduplicate_composer_key` of `music/utils.py`:
`normalize_name(full_name) + "_" + (str(birth_year) if truthy else "unknown")`. -/
def deduplicate_composer_key (full_name : String) (birth_year : Option Int) : String :=
  let year_str := match birth_year with
    | some y => if y ≠ 0 then toString y else "unknown"
    | none => "unknown"
  normalize_name full_name ++ "_" ++ year_str

/-- Embeds `clean_country_name` of `music/utils.py`: strip, then apply the
fixed alias table, passing unknown names through unchanged. -/
def clean_country_name (country : String) : String :=
  if country = "" then ""
  else
    let c := pyStrip country
    if c = "USA" then "United States"
    else if c = "U.S.A." then "United States"
    else if c = "United States of America" then "United States"
    else if c = "UK" then "United Kingdom"
    else if c = "U.K." then "United Kingdom"
    else if c = "Great Britain" then "United Kingdom"
    else if c = "The Netherlands" then "Netherlands"
    else if c = "Holland" then "Netherlands"
    else c

example : clean_year "ca. 1500" = some 1500 := by decide
example : clean_year "1750?" = some 1750 := by decide
example : clean_year "invalid" = none := by decide
example : clean_year "" = none := by decide
example : clean_year "1685" = some 1685 := by decide
example : normalize_name "Albéniz" = "albeniz" := by decide
example : normalize_name "François" = "francois" := by decide
example : normalize_name "MOZART" = "mozart" := by decide
example : is_living_composer 2026 (some 1970) none = true := by decide
example : is_living_composer 2026 (some 1970) (some 2020) = false := by decide
example : is_living_composer 2026 (some 1900) none = false := by decide
example : clean_country_name "USA" = "United States" := by decide
example : deduplicate_composer_key "Bach" none = "bach_unknown" := by decide

/-- Generic insertion into a `le`-sorted list, placing the new element before
the first element it is `le`-related to (hence stable). -/
def insertLe {α : Type} (le : α → α → Bool) (x : α) : List α → List α
  | [] => [x]
  | y :: ys => if le x y then x :: y :: ys else y :: insertLe le x ys

/-- Stable insertion sort.  Python's `list.sort` is a stable sort by the
comparison key, and stable sorts with the same key agree extensionally, so
this models `all_rows.sort(key=...)` exactly. -/
def sortLe {α : Type} (le : α → α → Bool) : List α → List α
  | [] => []
  | x :: xs => insertLe le x (sortLe le xs)

/-- The two provenance records (`DataSource` rows) the import command works
with.  `handle` get-or-creates exactly these two rows, keyed by their unique
names, before any batch runs. -/
inductive Src where
  | sheerpluck
  | imslp
deriving Repr, DecidableEq

/-- One CSV row as the command sees it: the values of the columns it reads
(`row.get(...)` with `''` for a missing column) plus the `_source` tag set
while loading. -/
structure Row where
  id : String
  name : String
  birthYearRaw : String
  deathYearRaw : String
  country : String
  work : String
  instrumentation : String
  link : String
  source : String
deriving Repr, DecidableEq

/-- A `Composer` table row, restricted to the fields the pipeline reads or
writes. -/
structure Composer where
  id : Nat
  fullName : String
  firstName : String
  lastName : String
  nameNormalized : String
  birthYear : Option Int
  deathYear : Option Int
  isLiving : Bool
  country : Option Nat
  dataSource : Src
  needsReview : Bool
deriving Repr, DecidableEq

/-- A `Work` table row, restricted to the fields the pipeline reads or
writes.  Empty string stands for SQL NULL in the text fields, matching the
Python truthiness tests the command uses. -/
structure Work where
  id : Nat
  composer : Nat
  title : String
  titleNormalized : String
  instrCat : Option Nat
  instrDetail : String
  dataSource : Src
  externalId : String
  needsReview : Bool
  imslpUrl : String
  scoreUrl : String
deriving Repr, DecidableEq

/-- The persistent store: one list per table, in insertion order, plus the
next free primary key for each table. -/
structure Store where
  countries : List (Nat × String)
  instrs : List (Nat × String)
  composers : List Composer
  works : List Work
  nextCountryId : Nat
  nextInstrId : Nat
  nextComposerId : Nat
  nextWorkId : Nat
deriving Repr, DecidableEq

/-- The run statistics dictionary `self.stats`. -/
structure Stats where
  totalRows : Nat
  sheerRows : Nat
  imslpRows : Nat
  composersCreated : Nat
  composersUpdated : Nat
  worksCreated : Nat
  worksSkipped : Nat
  errors : Nat
deriving Repr, DecidableEq

/-- All-zero statistics, as set up in `Command.__init__`. -/
def zeroStats : Stats :=
  ⟨0, 0, 0, 0, 0, 0, 0, 0⟩

/-- The state of one command invocation: the store plus the three in-run
caches (fresh per invocation) and the statistics counters. -/
structure RunState where
  store : Store
  composerCache : List (String × Nat)
  countryCache : List (String × Nat)
  instrCache : List (String × Nat)
  stats : Stats
deriving Repr, DecidableEq

/-- Fresh run state over a given store: empty caches, zero counters. -/
def initState (store : Store) : RunState :=
  ⟨store, [], [], [], zeroStats⟩

/-- The composer-cache key built in `_get_or_create_composer`:
`f"{full_name}_{birth_year}_{death_year}"`, where Python renders an absent
year as the string `None`. -/
def pyOptIntStr (o : Option Int) : String :=
  match o with
  | none => "None"
  | some v => toString v

/-- The cache key `f"{full_name}_{birth_year}_{death_year}"`. -/
def composerCacheKey (fullName : String) (birthYear deathYear : Option Int) : String :=
  fullName ++ "_" ++ pyOptIntStr birthYear ++ "_" ++ pyOptIntStr deathYear

/-- Embeds `Country.objects.get_or_create(name=...)` behind the in-run
country cache (`_get_or_create_country`).  Returns the country's primary
key. -/
def getOrCreateCountry (st : RunState) (countryName : String) : RunState × Nat :=
  match st.countryCache.lookup countryName with
  | some cid => (st, cid)
  | none =>
    match st.store.countries.find? (fun p => p.2 = countryName) with
    | some p =>
      ({ st with countryCache := (countryName, p.1) :: st.countryCache }, p.1)
    | none =>
      let cid := st.store.nextCountryId
      ({ st with
          store := { st.store with
            countries := st.store.countries ++ [(cid, countryName)],
            nextCountryId := cid + 1 },
          countryCache := (countryName, cid) :: st.countryCache }, cid)

/-- Embeds `_get_or_create_instrumentation`. -/
def getOrCreateInstr (st : RunState) (instrName : String) : RunState × Nat :=
  match st.instrCache.lookup instrName with
  | some iid => (st, iid)
  | none =>
    match st.store.instrs.find? (fun p => p.2 = instrName) with
    | some p =>
      ({ st with instrCache := (instrName, p.1) :: st.instrCache }, p.1)
    | none =>
      let iid := st.store.nextInstrId
      ({ st with
          store := { st.store with
            instrs := st.store.instrs ++ [(iid, instrName)],
            nextInstrId := iid + 1 },
          instrCache := (instrName, iid) :: st.instrCache }, iid)

/-- Embeds `Composer.objects.filter(full_name=..., birth_year=...).first()`. -/
def compFind (cs : List Composer) (n : String) (b : Option Int) : Option Composer :=
  cs.find? (fun c => c.fullName = n && c.birthYear = b)

/-- Embeds the `Last, First` / `First Last` / single-token name splitting at
the top of `_get_or_create_composer`: `full_name.split(',', 1)` and
`full_name.rsplit(' ', 1)`.  Returns `(first_name, last_name)`. -/
def splitComposerName (fullName : String) : String × String :=
  if fullName.data.contains ',' then
    let before := fullName.data.takeWhile (fun c => c ≠ ',')
    let after := (fullName.data.dropWhile (fun c => c ≠ ',')).drop 1
    (pyStrip (String.mk after), pyStrip (String.mk before))
  else if fullName.data.contains ' ' then
    let revAfter := fullName.data.reverse.takeWhile (fun c => c ≠ ' ')
    let revBefore := (fullName.data.reverse.dropWhile (fun c => c ≠ ' ')).drop 1
    (pyStrip (String.mk revBefore.reverse), pyStrip (String.mk revAfter.reverse))
  else ("", fullName)

/-- Embeds `_get_or_create_composer`: consult the in-run cache keyed by
`f"{full_name}_{birth_year}_{death_year}"`; on a miss, look the composer up
by `(full_name, birth_year)`; if found, fill only a falsy `death_year` and a
null `country` (updating the store only when something changed); otherwise
create a new composer with `needs_review = True` and the inline
`is_living` computation (`death_year is None and birth_year and
birth_year > 1900`).  Returns the composer's primary key. -/
def getOrCreateComposer (st : RunState) (fullName : String)
    (birthYear deathYear : Option Int) (country : Option Nat)
    (dataSource : Src) : RunState × Nat :=
  let cacheKey := composerCacheKey fullName birthYear deathYear
  match st.composerCache.lookup cacheKey with
  | some cid => (st, cid)
  | none =>
    let names := splitComposerName fullName
    match compFind st.store.composers fullName birthYear with
    | some c =>
      let needDeath := !(pyTruthyInt c.deathYear) && pyTruthyInt deathYear
      let needCountry := c.country.isNone && country.isSome
      let c' := { c with
        deathYear := if needDeath then deathYear else c.deathYear,
        country := if needCountry then country else c.country }
      let updated := needDeath || needCountry
      let store' := if updated then
          { st.store with composers :=
              st.store.composers.map (fun x => if x.id = c.id then c' else x) }
        else st.store
      let stats' := if updated then
          { st.stats with composersUpdated := st.stats.composersUpdated + 1 }
        else st.stats
      ({ st with
          store := store',
          stats := stats',
          composerCache := (cacheKey, c.id) :: st.composerCache }, c.id)
    | none =>
      let isLiving := deathYear.isNone && pyTruthyInt birthYear &&
        (match birthYear with | some b => decide (1900 < b) | none => false)
      let c : Composer := {
        id := st.store.nextComposerId,
        fullName := fullName,
        firstName := names.1,
        lastName := names.2,
        nameNormalized := normalizeString fullName,
        birthYear := birthYear,
        deathYear := deathYear,
        isLiving := isLiving,
        country := country,
        dataSource := dataSource,
        needsReview := true }
      ({ st with
          store := { st.store with
            composers := st.store.composers ++ [c],
            nextComposerId := st.store.nextComposerId + 1 },
          stats := { st.stats with composersCreated := st.stats.composersCreated + 1 },
          composerCache := (cacheKey, c.id) :: st.composerCache }, c.id)

/-- Embeds the two-stage work lookup of `_process_row`: first
`(external_id, data_source)`, attempted only when `external_id` is
non-empty, then `(title, composer)`. -/
def workLookup (ws : List Work) (externalId : String) (dataSource : Src)
    (title : String) (cid : Nat) : Option Work :=
  let byExt := if externalId ≠ "" then
      ws.find? (fun w => w.externalId = externalId && w.dataSource = dataSource)
    else none
  match byExt with
  | some w => some w
  | none => ws.find? (fun w => w.title = title && w.composer = cid)

/-- Embeds the merge half of `_process_row`: instrumentation category and
detail are overwritten unconditionally; `external_id` is backfilled only
when currently empty; the source-appropriate link field is backfilled only
when currently empty. -/
def mergeFields (w : Work) (instrCat : Option Nat) (instrumentation externalId link srcName : String) : Work :=
  let w1 := { w with instrCat := instrCat, instrDetail := instrumentation }
  let w2 := if externalId ≠ "" && w1.externalId = "" then { w1 with externalId := externalId } else w1
  if link ≠ "" then
    if srcName = "imslp" && w2.imslpUrl = "" then { w2 with imslpUrl := link }
    else if srcName = "sheerpluck" && w2.scoreUrl = "" then { w2 with scoreUrl := link }
    else w2
  else w2

/-- Embeds the create half of `_process_row`. -/
def createWork (wid cid : Nat) (title : String) (instrCat : Option Nat)
    (instrumentation : String) (dataSource : Src) (externalId link srcName : String) : Work :=
  { id := wid,
    composer := cid,
    title := title,
    titleNormalized := normalizeString title,
    instrCat := instrCat,
    instrDetail := instrumentation,
    dataSource := dataSource,
    externalId := externalId,
    needsReview := true,
    imslpUrl := if link ≠ "" && srcName = "imslp" then link else "",
    scoreUrl := if link ≠ "" && srcName = "sheerpluck" then link else "" }

/-- Line 189 of `import_sheerpluck.py`: the `DataSource` record chosen for a
row (`sheerpluck_source` when `_source == 'sheerpluck'`, otherwise
`imslp_source`). -/
def rowDataSource (r : Row) : Src :=
  if r.source = "sheerpluck" then Src.sheerpluck else Src.imslp

/-- The country resolution step of `_process_row` (lines 206-209): resolve
only a non-empty trimmed country name. -/
def countryStage (st : RunState) (r : Row) : RunState × Option Nat :=
  if pyStrip r.country ≠ "" then
    let p := getOrCreateCountry st (pyStrip r.country)
    (p.1, some p.2)
  else (st, none)

/-- The composer resolution step of `_process_row` (lines 211-214). -/
def composerStage (st : RunState) (r : Row) (country : Option Nat) : RunState × Nat :=
  getOrCreateComposer st (pyStrip r.name) (parseYear r.birthYearRaw)
    (parseYear r.deathYearRaw) country (rowDataSource r)

/-- The instrumentation resolution step of `_process_row` (lines 216-219). -/
def instrStage (st : RunState) (r : Row) : RunState × Option Nat :=
  if pyStrip r.instrumentation ≠ "" then
    let p := getOrCreateInstr st (pyStrip r.instrumentation)
    (p.1, some p.2)
  else (st, none)

/-- The work lookup/merge/create step of `_process_row` (lines 221-272). -/
def workStage (st : RunState) (r : Row) (cid : Nat) (instrCat : Option Nat) : RunState :=
  match workLookup st.store.works (pyStrip r.id) (rowDataSource r) (pyStrip r.work) cid with
  | some w =>
    let w' := mergeFields w instrCat (pyStrip r.instrumentation) (pyStrip r.id)
      (pyStrip r.link) r.source
    { st with
        store := { st.store with
          works := st.store.works.map (fun x => if x.id = w.id then w' else x) },
        stats := { st.stats with worksSkipped := st.stats.worksSkipped + 1 } }
  | none =>
    let w := createWork st.store.nextWorkId cid (pyStrip r.work) instrCat
      (pyStrip r.instrumentation) (rowDataSource r) (pyStrip r.id) (pyStrip r.link) r.source
    { st with
        store := { st.store with
          works := st.store.works ++ [w],
          nextWorkId := st.store.nextWorkId + 1 },
        stats := { st.stats with worksCreated := st.stats.worksCreated + 1 } }

/-- Embeds `_process_row`: validate the required fields, then resolve
country, composer and instrumentation, then look up and merge or create the
work.  The enclosing `try/except` is dead in the model: every store
operation is total, so the branch taken on a database exception never fires
here. -/
def processRow (st : RunState) (r : Row) : RunState :=
  if pyStrip r.name = "" || pyStrip r.work = "" then
    { st with stats := { st.stats with errors := st.stats.errors + 1 } }
  else
    let resC := countryStage st r
    let resK := composerStage resC.1 r resC.2
    let resI := instrStage resK.1 r
    workStage resI.1 r resK.2 resI.2

/-- Processing a row sequence in order. -/
def runRows (rows : List Row) (st : RunState) : RunState :=
  rows.foldl processRow st

/-- Embeds `_validate_row`, the dry-run per-row action: one error per
missing required field, judged on the raw (unstripped) values. -/
def validateRow (st : RunState) (r : Row) : RunState :=
  let e1 := if r.name = "" then 1 else 0
  let e2 := if r.work = "" then 1 else 0
  { st with stats := { st.stats with errors := st.stats.errors + e1 + e2 } }

/-- The sort key of `all_rows.sort`: `(name.strip().lower(), work.strip().lower())`. -/
def rowKey (r : Row) : String × String :=
  (pyLower (pyStrip r.name), pyLower (pyStrip r.work))

/-- Lexicographic code-point comparison of character lists: the order Python
uses on `str`. -/
def charListLe : List Char → List Char → Bool
  | [], _ => true
  | _ :: _, [] => false
  | a :: as, b :: bs => if a = b then charListLe as bs else decide (a < b)

/-- Python string comparison `a <= b`. -/
def strLe (a b : String) : Bool := charListLe a.data b.data

/-- Python's lexicographic tuple comparison on the sort keys: when the first
components are equal it compares the second components, otherwise it
compares the first (for distinct strings, `<=` and `<` coincide).  This is
the key order of `all_rows.sort`. -/
def rowLe (a b : Row) : Bool :=
  if (rowKey a).1 = (rowKey b).1 then strLe (rowKey a).2 (rowKey b).2
  else strLe (rowKey a).1 (rowKey b).1

/-- Embeds line 129 of `import_sheerpluck.py`: the stable in-place sort of
the combined row list by `(name.strip().lower(), work.strip().lower())`. -/
def sortRows (rows : List Row) : List Row :=
  sortLe rowLe rows

/-- Loading: each configured source is either missing (`none`) or a list of
parsed CSV rows; rows read from a source are tagged with its identifier. -/
def loadRows (sheer imslp : Option (List Row)) : List Row :=
  (sheer.getD []).map (fun r => { r with source := "sheerpluck" }) ++
    (imslp.getD []).map (fun r => { r with source := "imslp" })

/-- Fuelled batch splitting (structural recursion so that concrete runs
reduce inside the kernel). -/
def chunksGo (n : Nat) : Nat → List Row → List (List Row)
  | 0, _ => []
  | _, [] => []
  | fuel + 1, x :: xs => ((x :: xs).take n) :: chunksGo n fuel ((x :: xs).drop n)

/-- The batch decomposition of the sorted row list, batch size 100. -/
def chunks (rows : List Row) : List (List Row) :=
  chunksGo 100 rows.length rows

/-- Embeds `_process_batch` with an explicit failure oracle standing for a
database exception surfacing when the transaction commits: on failure the
transaction rolls back the store, while the in-memory caches and counters
keep their updates and the error counter increments — exactly the state
`except` leaves behind. -/
def processBatchF (fail : Bool) (batch : List Row) (st : RunState) : RunState :=
  let st' := runRows batch st
  if fail then
    { st' with
        store := st.store,
        stats := { st'.stats with errors := st'.stats.errors + 1 } }
  else st'

/-- Sequential batch execution; `fails i` tells whether the `i`-th remaining
batch's transaction fails. -/
def runBatchesF (fails : Nat → Bool) : List (List Row) → RunState → RunState
  | [], st => st
  | b :: bs, st => runBatchesF (fun i => fails (i + 1)) bs (processBatchF (fails 0) b st)

/-- Embeds `Command.handle`: load both sources, abort with the
`CommandError` when the combined row list is empty, sort, then either
dry-run-validate every row or process the batches.  (`DataSource`
get-or-create is represented by the fixed `Src` values: the two rows are
keyed by their unique names, so reruns resolve to the same records.) -/
def runImport (dryRun : Bool) (fails : Nat → Bool) (sheer imslp : Option (List Row))
    (store : Store) : Except String RunState :=
  let rows := loadRows sheer imslp
  if rows.isEmpty then .error "No data found in either CSV file"
  else
    let sorted := sortRows rows
    let st0 : RunState := { store := store, composerCache := [], countryCache := [], instrCache := [], stats := { zeroStats with totalRows := sorted.length, sheerRows := (sheer.getD []).length, imslpRows := (imslp.getD []).length } }
    if dryRun then .ok (sorted.foldl validateRow st0)
    else .ok (runBatchesF fails (chunks sorted) st0)

/-- The failure oracle of a run in which no database exception occurs. -/
def noFail : Nat → Bool := fun _ => false

/-- All works sharing a `(title, composer)` key, in store order. -/
def workGroup (ws : List Work) (t : String) (c : Nat) : List Work :=
  ws.filter (fun w => w.title = t && w.composer = c)

/-- Minimum primary key of a list of works (`Min('id')`); `0` on the empty
list, which never arises in use. -/
def minWorkId (ws : List Work) : Nat :=
  match ws.map (fun w => w.id) with
  | [] => 0
  | i :: is => is.foldl Nat.min i

/-- Embeds the `values('title','composer').annotate(count, min_id)
.filter(count__gt=1)` snapshot of `deduplicate_works.py`: the distinct
`(title, composer)` keys with more than one row, each with the minimum id of
its group, computed against the store as it is when the loop starts. -/
def dupGroups (ws : List Work) : List (String × Nat × Nat) :=
  ((ws.map (fun w => (w.title, w.composer))).dedup).filterMap (fun k =>
    if 1 < (workGroup ws k.1 k.2).length then
      some (k.1, k.2, minWorkId (workGroup ws k.1 k.2))
    else none)

/-- The survival test of one dedup deletion: a work is kept unless it
matches the group key and is not the snapshot minimum
(`filter(title, composer).exclude(id=min_id)`). -/
def keepRow (g : String × Nat × Nat) (w : Work) : Bool :=
  !(w.title = g.1 && w.composer = g.2.1 && w.id ≠ g.2.2)

/-- One loop iteration of the destructive dedup pass: delete every row of
the group except the one with the snapshot minimum id, accumulating the
deletion count. -/
def deleteStep (acc : List Work × Nat) (g : String × Nat × Nat) : List Work × Nat :=
  (acc.1.filter (keepRow g), acc.2 + (acc.1.length - (acc.1.filter (keepRow g)).length))

/-- Embeds the destructive run of `deduplicate_works.Command.handle`:
returns the surviving works and `total_deleted`. -/
def dedupRun (ws : List Work) : List Work × Nat :=
  (dupGroups ws).foldl deleteStep (ws, 0)

/-- The store with all tables empty, as a base for concrete runs. -/
def emptyStore : Store := ⟨[], [], [], [], 0, 0, 0, 0⟩

/-- Helper for C7: a successful `clean_year` lies in `[1000, 2100]`. -/
theorem clean_year_mem_range (s : String) (y : Int) (h : clean_year s = some y) :
    1000 ≤ y ∧ y ≤ 2100 := by
  unfold clean_year at h
  split at h
  · simp at h
  · rename_i hs
    cases hf : findFourDigits (stripTrailingQual (stripCaPrefix (pyStrip s).data)) with
    | none => rw [hf] at h; simp at h
    | some ds =>
      rw [hf] at h
      simp only at h
      split at h
      · rename_i hrange
        simp only [Option.some.injEq] at h
        subst h
        simpa [Bool.and_eq_true, decide_eq_true_eq] using hrange
      · simp at h

/-- C7: `clean_year` strips a leading `ca.`/`c.` qualifier
(case-insensitively) and a trailing `?` or `*`, extracts the first window of
four consecutive digits, and accepts the value only when it lies in
`[1000, 2100]`; in particular the four anchor examples hold, and the
function is total (it is a Lean function returning `Option Int`, so it never
raises). -/
theorem clean_year_claim :
    clean_year "ca. 1500" = some 1500 ∧
    clean_year "1750?" = some 1750 ∧
    clean_year "invalid" = none ∧
    clean_year "" = none ∧
    clean_year "c. 1600" = some 1600 ∧
    clean_year "CA.1740*" = some 1740 ∧
    clean_year "999" = none ∧
    clean_year "2101" = none ∧
    (∀ s y, clean_year s = some y → 1000 ≤ y ∧ y ≤ 2100) :=
  ⟨by decide, by decide, by decide, by decide, by decide, by decide, by decide, by decide,
    clean_year_mem_range⟩

/-- Witness for C7: the range property applied at the concrete input
`"ca. 1500"`. -/
theorem clean_year_claim_witness : 1000 ≤ (1500 : Int) ∧ (1500 : Int) ≤ 2100 :=
  clean_year_claim.2.2.2.2.2.2.2.2 "ca. 1500" 1500 (by decide)

/-- Concrete row for C4: a composer born in 1901 with no recorded death. -/
def rowC4 : Row := ⟨"", "Alice Smith", "1901", "", "", "Etude", "", "", "sheerpluck"⟩

/-- C4 counterexample: the import command's inline `is_living` computation
(`death_year is None and birth_year and birth_year > 1900`) has no
age-under-100 cap: for a composer born in 1901 and no death year it stores
`is_living = True`, while the `isLikelyLiving` rule of the spec — embodied
by `is_living_composer` in `music/utils.py`, which `_get_or_create_composer`
never calls — yields `False` at the current year 2026 because the implied
age 125 is not under 100. -/
theorem is_living_no_age_cap :
    ((processRow (initState emptyStore) rowC4).store.composers.map (fun c => c.isLiving))
      = [true] ∧
    is_living_composer 2026 (some 1901) none = false := by
  constructor
  · decide
  · decide

/-- C4 amended: when `_get_or_create_composer` creates a new composer, its
`is_living` flag is `True` exactly when the death year is absent and the
birth year is present (and truthy) and greater than 1900 — with no
age-under-100 condition. -/
theorem created_composer_is_living (st : RunState) (n : String) (b d : Option Int)
    (co : Option Nat) (ds : Src)
    (hc : st.composerCache.lookup (composerCacheKey n b d) = none)
    (hf : compFind st.store.composers n b = none) :
    (getOrCreateComposer st n b d co ds).1.store.composers.map (fun c => c.isLiving)
      = st.store.composers.map (fun c => c.isLiving) ++
        [d.isNone && pyTruthyInt b &&
          (match b with | some y => decide (1900 < y) | none => false)] := by
  simp only [getOrCreateComposer]
  rw [hc, hf]
  cases b <;> simp

/-- Witness for C4's amended theorem at a concrete creation. -/
theorem created_composer_is_living_witness :
    (getOrCreateComposer (initState emptyStore) "Alice Smith" (some 1901) none none
        Src.sheerpluck).1.store.composers.map (fun c => c.isLiving)
      = ([] : List Composer).map (fun c => c.isLiving) ++
        [(none : Option Int).isNone && pyTruthyInt (some 1901) &&
          (match some (1901 : Int) with | some y => decide (1900 < y) | none => false)] :=
  created_composer_is_living (initState emptyStore) "Alice Smith" (some 1901) none none
    Src.sheerpluck (by decide) (by decide)

/-- C5 counterexample: resolving the composer `"Bach"` with unknown birth
and death years caches it under the key `"Bach_None_None"` — the f-string
`f"{full_name}_{birth_year}_{death_year}"` over the raw name — whereas the
claimed key `normalizeName(fullName) + "_" + (birth year or "unknown")`,
which is exactly `deduplicate_composer_key` of `music/utils.py`, would be
`"bach_unknown"`. -/
theorem composer_cache_key_mismatch :
    (getOrCreateComposer (initState emptyStore) "Bach" none none none
        Src.sheerpluck).1.composerCache = [("Bach_None_None", 0)] ∧
    deduplicate_composer_key "Bach" none = "bach_unknown" ∧
    ("Bach_None_None" : String) ≠ "bach_unknown" := by
  refine ⟨by decide, by decide, by decide⟩

/-- C5 amended: every composer resolution leaves the in-run composer cache
holding the returned composer's id under the key
`full_name ++ "_" ++ str(birth_year) ++ "_" ++ str(death_year)`, where an
absent year renders as `"None"` (raw name, not normalised; death year
included; no `"unknown"` placeholder). -/
theorem composer_cache_key_amended (st : RunState) (n : String) (b d : Option Int)
    (co : Option Nat) (ds : Src) :
    (getOrCreateComposer st n b d co ds).1.composerCache.lookup
        (composerCacheKey n b d) = some (getOrCreateComposer st n b d co ds).2 := by
  simp only [getOrCreateComposer]
  cases hc : st.composerCache.lookup (composerCacheKey n b d) with
  | some cid => simpa using hc
  | none =>
    cases hf : compFind st.store.composers n b with
    | some c => simp [List.lookup]
    | none => simp [List.lookup]

/-- Helper: dry-run validation only increments the error counter; the store
and all other counters are untouched. -/
theorem foldl_validateRow_frame (rows : List Row) (st : RunState) :
    (rows.foldl validateRow st).store = st.store ∧
    (rows.foldl validateRow st).composerCache = st.composerCache ∧
    (rows.foldl validateRow st).stats.composersCreated = st.stats.composersCreated ∧
    (rows.foldl validateRow st).stats.composersUpdated = st.stats.composersUpdated ∧
    (rows.foldl validateRow st).stats.worksCreated = st.stats.worksCreated ∧
    (rows.foldl validateRow st).stats.worksSkipped = st.stats.worksSkipped := by
  induction rows generalizing st with
  | nil => exact ⟨rfl, rfl, rfl, rfl, rfl, rfl⟩
  | cons r rs ih =>
    simpa only [List.foldl_cons, validateRow] using ih _

/-- C9: with `--dry-run` the command performs no store mutation of any
kind: whenever the run completes (it can still abort on an empty combined
row list), the resulting store is exactly the initial store, and no
create/update/merge counter moved — rows are only validated and counted. -/
theorem dry_run_frame (fails : Nat → Bool) (sheer imslp : Option (List Row))
    (store : Store) (out : RunState)
    (h : runImport true fails sheer imslp store = .ok out) :
    out.store = store ∧
    out.stats.composersCreated = 0 ∧
    out.stats.composersUpdated = 0 ∧
    out.stats.worksCreated = 0 ∧
    out.stats.worksSkipped = 0 := by
  simp only [runImport] at h
  split at h
  · exact absurd h (by simp)
  · simp only [if_true, Except.ok.injEq] at h
    subst h
    exact foldl_validateRow_frame _ _ |>.imp id (fun p => p.2)

/-- Concrete well-formed row used by several witnesses. -/
def rowW : Row := ⟨"7", "Ann Lee", "1950", "", "France", "Suite", "Solo Guitar", "", "sheerpluck"⟩

/-- Totalising accessor for a completed run, used only to phrase closed
witness statements. -/
def okOr (d : RunState) : Except String RunState → RunState
  | .ok s => s
  | .error _ => d

/-- Witness for C9 at a concrete dry run over one row. -/
theorem dry_run_frame_witness :
    (okOr (initState emptyStore) (runImport true noFail (some [rowW]) none emptyStore)).store
      = emptyStore ∧
    (okOr (initState emptyStore)
        (runImport true noFail (some [rowW]) none emptyStore)).stats.composersCreated = 0 ∧
    (okOr (initState emptyStore)
        (runImport true noFail (some [rowW]) none emptyStore)).stats.composersUpdated = 0 ∧
    (okOr (initState emptyStore)
        (runImport true noFail (some [rowW]) none emptyStore)).stats.worksCreated = 0 ∧
    (okOr (initState emptyStore)
        (runImport true noFail (some [rowW]) none emptyStore)).stats.worksSkipped = 0 :=
  dry_run_frame noFail (some [rowW]) none emptyStore _ rfl

/-- Concrete rows for C10: two alias spellings of the same country. -/
def rowUSA : Row := ⟨"", "Alice Smith", "", "", "USA", "T1", "", "", "sheerpluck"⟩

/-- Second C10 row, differing only in the country spelling. -/
def rowUS : Row := ⟨"", "Alice Smith", "", "", "United States", "T1", "", "", "sheerpluck"⟩

/-- C10: `_get_or_create_country` keys `Country` records by the raw trimmed
CSV value — a fresh name is stored verbatim — and the pipeline never applies
the `clean_country_name` alias table; ingesting rows with the alias
spellings `"USA"` and `"United States"` therefore produces two distinct
`Country` entities even though `clean_country_name` maps both to the same
canonical name. -/
theorem country_raw_key_claim :
    (∀ (st : RunState) (n : String), st.countryCache.lookup n = none →
      st.store.countries.find? (fun p => p.2 = n) = none →
      (getOrCreateCountry st n).1.store.countries
        = st.store.countries ++ [(st.store.nextCountryId, n)]) ∧
    (runRows [rowUSA, rowUS] (initState emptyStore)).store.countries.map
        (fun p => p.2) = ["USA", "United States"] ∧
    clean_country_name "USA" = clean_country_name "United States" := by
  refine ⟨?_, by decide, by decide⟩
  intro st n hc hf
  simp only [getOrCreateCountry]
  rw [hc, hf]

/-- Witness for C10's general conjunct at a concrete fresh country. -/
theorem country_raw_key_claim_witness :
    (getOrCreateCountry (initState emptyStore) "USA").1.store.countries
      = (initState emptyStore).store.countries ++
        [((initState emptyStore).store.nextCountryId, "USA")] :=
  country_raw_key_claim.1 (initState emptyStore) "USA" (by decide) (by decide)

/-- C8 counterexample: the hard failure is not raised exactly when all
configured source files are missing — a run whose Sheerpluck file exists but
contains zero data rows, with the IMSLP file missing, also aborts with the
`CommandError` (`if not all_rows`), even though not all sources are
missing. -/
theorem abort_on_empty_sources :
    (some ([] : List Row) ≠ (none : Option (List Row))) ∧
    runImport false noFail (some []) none emptyStore
      = Except.error "No data found in either CSV file" :=
  ⟨by decide, rfl⟩

/-- C8 amended: row and batch errors are absorbed locally — a row missing
its composer name or work title only increments the error counter, and a
batch whose transaction fails rolls back the store, adds one error, and does
not stop the remaining batches — while the run aborts with the hard
`CommandError` exactly when the combined loaded row list is empty, i.e. when
every configured source is missing or contributes zero rows (not only when
all files are missing). -/
theorem error_policy_amended :
    (∀ (dr : Bool) (fails : Nat → Bool) (sheer imslp : Option (List Row)) (store : Store),
      (∃ e, runImport dr fails sheer imslp store = .error e) ↔ loadRows sheer imslp = []) ∧
    (∀ (b : List Row) (st : RunState),
      (processBatchF true b st).store = st.store ∧
      (processBatchF true b st).stats.errors = (runRows b st).stats.errors + 1 ∧
      processBatchF false b st = runRows b st) ∧
    (∀ (fails : Nat → Bool) (b : List Row) (bs : List (List Row)) (st : RunState),
      runBatchesF fails (b :: bs) st
        = runBatchesF (fun i => fails (i + 1)) bs (processBatchF (fails 0) b st)) ∧
    (∀ (st : RunState) (r : Row), pyStrip r.name = "" ∨ pyStrip r.work = "" →
      processRow st r
        = { st with stats := { st.stats with errors := st.stats.errors + 1 } }) := by
  refine ⟨?_, ?_, ?_, ?_⟩
  · intro dr fails sheer imslp store
    simp only [runImport]
    split
    · rename_i hempty
      simp only [List.isEmpty_iff] at hempty
      exact ⟨fun _ => hempty, fun _ => ⟨_, rfl⟩⟩
    · rename_i hempty
      simp only [List.isEmpty_iff] at hempty
      constructor
      · rintro ⟨e, he⟩
        split at he <;> simp at he
      · intro h
        exact absurd h hempty
  · intro b st
    refine ⟨rfl, rfl, rfl⟩
  · intro fails b bs st
    rfl
  · intro st r h
    have hb : (pyStrip r.name = "" || pyStrip r.work = "") = true := by
      rcases h with h | h <;> simp [h]
    simp [processRow, hb]

/-- Concrete row for C8's witness: missing composer name. -/
def rowBad : Row := ⟨"", "", "", "", "", "SomeTitle", "", "", "sheerpluck"⟩

/-- Witness for C8's amended theorem: the row-error conjunct applied at a
concrete row with a missing composer name. -/
theorem error_policy_amended_witness :
    processRow (initState emptyStore) rowBad
      = { (initState emptyStore) with
          stats := { (initState emptyStore).stats with
            errors := (initState emptyStore).stats.errors + 1 } } :=
  error_policy_amended.2.2.2 (initState emptyStore) rowBad (Or.inl (by decide))


/-- Reflexivity of the code-point comparison. -/
theorem charListLe_refl (a : List Char) : charListLe a a = true := by
  induction a with
  | nil => rfl
  | cons x xs ih => simp [charListLe, ih]

/-- Totality of the code-point comparison. -/
theorem charListLe_total (a b : List Char) :
    charListLe a b = true ∨ charListLe b a = true := by
  induction a generalizing b with
  | nil => exact Or.inl rfl
  | cons x xs ih =>
    cases b with
    | nil => exact Or.inr rfl
    | cons y ys =>
      by_cases hxy : x = y
      · subst hxy
        simpa [charListLe] using ih ys
      · rcases lt_or_gt_of_ne hxy with h | h
        · exact Or.inl (by simp [charListLe, hxy, h])
        · exact Or.inr (by simp [charListLe, Ne.symm hxy, h])

/-- Transitivity of the code-point comparison. -/
theorem charListLe_trans (a b c : List Char) (hab : charListLe a b = true)
    (hbc : charListLe b c = true) : charListLe a c = true := by
  induction a generalizing b c with
  | nil => rfl
  | cons x xs ih =>
    cases b with
    | nil => simp [charListLe] at hab
    | cons y ys =>
      cases c with
      | nil => simp [charListLe] at hbc
      | cons z zs =>
        simp only [charListLe] at hab hbc ⊢
        by_cases hxy : x = y <;> by_cases hyz : y = z
        · subst hxy; subst hyz
          simp only [if_pos rfl] at hab hbc ⊢
          exact ih ys zs (by simpa using hab) (by simpa using hbc)
        · subst hxy
          simp only [if_neg hyz] at hbc ⊢
          exact hbc
        · subst hyz
          simp only [if_neg hxy] at hab ⊢
          exact hab
        · rw [if_neg hxy] at hab
          rw [if_neg hyz] at hbc
          have hxz : x < z := lt_trans (of_decide_eq_true hab) (of_decide_eq_true hbc)
          rw [if_neg (ne_of_lt hxz)]
          exact decide_eq_true hxz

/-- Antisymmetry of the code-point comparison. -/
theorem charListLe_antisymm (a b : List Char) (hab : charListLe a b = true)
    (hba : charListLe b a = true) : a = b := by
  induction a generalizing b with
  | nil =>
    cases b with
    | nil => rfl
    | cons y ys => simp [charListLe] at hba
  | cons x xs ih =>
    cases b with
    | nil => simp [charListLe] at hab
    | cons y ys =>
      simp only [charListLe] at hab hba
      by_cases hxy : x = y
      · subst hxy
        simp only [if_pos rfl] at hab hba
        exact congrArg (x :: ·) (ih ys hab hba)
      · rw [if_neg hxy] at hab
        rw [if_neg (Ne.symm hxy)] at hba
        exact absurd (of_decide_eq_true hba) (lt_asymm (of_decide_eq_true hab))

/-- String-level antisymmetry. -/
theorem strLe_antisymm (a b : String) (hab : strLe a b = true)
    (hba : strLe b a = true) : a = b := by
  cases a with
  | mk da =>
    cases b with
    | mk db => exact congrArg String.mk (charListLe_antisymm da db hab hba)

/-- Rows with equal sort keys compare `le` in both directions. -/
theorem rowLe_of_key_eq {a b : Row} (h : rowKey a = rowKey b) : rowLe a b = true := by
  have h1 : (rowKey a).1 = (rowKey b).1 := by rw [h]
  have h2 : (rowKey a).2 = (rowKey b).2 := by rw [h]
  simp only [rowLe, if_pos h1, h2]
  exact charListLe_refl _

/-- Totality of the row comparison. -/
theorem rowLe_total (a b : Row) : rowLe a b = true ∨ rowLe b a = true := by
  simp only [rowLe]
  by_cases h1 : (rowKey a).1 = (rowKey b).1
  · rw [if_pos h1, if_pos h1.symm]
    exact charListLe_total _ _
  · rw [if_neg h1, if_neg (Ne.symm h1)]
    exact charListLe_total _ _

/-- Transitivity of the row comparison. -/
theorem rowLe_trans (a b c : Row) (hab : rowLe a b = true) (hbc : rowLe b c = true) :
    rowLe a c = true := by
  simp only [rowLe] at hab hbc ⊢
  by_cases h1 : (rowKey a).1 = (rowKey b).1 <;>
    by_cases h2 : (rowKey b).1 = (rowKey c).1
  · rw [if_pos h1] at hab
    rw [if_pos h2] at hbc
    rw [if_pos (h1.trans h2)]
    exact charListLe_trans _ _ _ hab hbc
  · rw [if_pos h1] at hab
    rw [if_neg h2] at hbc
    rw [if_neg (fun h => h2 (h1.symm.trans h)), h1]
    exact hbc
  · rw [if_neg h1] at hab
    rw [if_pos h2] at hbc
    rw [if_neg (fun h => h1 (h.trans h2.symm)), ← h2]
    exact hab
  · rw [if_neg h1] at hab
    rw [if_neg h2] at hbc
    by_cases hac : (rowKey a).1 = (rowKey c).1
    · exact absurd (strLe_antisymm _ _ hab (hac ▸ hbc)) h1
    · rw [if_neg hac]
      exact charListLe_trans _ _ _ hab hbc

/-- Membership in an insertion. -/
theorem mem_insertLe {α : Type} (le : α → α → Bool) (x z : α) (l : List α) :
    z ∈ insertLe le x l ↔ z = x ∨ z ∈ l := by
  induction l with
  | nil => simp [insertLe]
  | cons y ys ih =>
    simp only [insertLe]
    split
    · simp [or_comm, or_assoc, or_left_comm]
    · simp only [List.mem_cons, ih]
      tauto

/-- Insertion produces a permutation of consing. -/
theorem insertLe_perm {α : Type} (le : α → α → Bool) (x : α) (l : List α) :
    List.Perm (insertLe le x l) (x :: l) := by
  induction l with
  | nil => simp [insertLe]
  | cons y ys ih =>
    simp only [insertLe]
    split
    · exact List.Perm.refl _
    · exact (ih.cons y).trans (List.Perm.swap x y ys)

/-- The stable sort permutes its input. -/
theorem sortLe_perm {α : Type} (le : α → α → Bool) (l : List α) :
    List.Perm (sortLe le l) l := by
  induction l with
  | nil => exact List.Perm.refl _
  | cons x xs ih => exact (insertLe_perm le x (sortLe le xs)).trans (ih.cons x)

/-- Insertion preserves pairwise sortedness for a total transitive order. -/
theorem insertLe_pairwise {α : Type} (le : α → α → Bool)
    (htot : ∀ a b, le a b = true ∨ le b a = true)
    (htrans : ∀ a b c, le a b = true → le b c = true → le a c = true)
    (x : α) (l : List α) (hl : l.Pairwise (fun a b => le a b = true)) :
    (insertLe le x l).Pairwise (fun a b => le a b = true) := by
  induction l with
  | nil => simp [insertLe]
  | cons y ys ih =>
    rcases List.pairwise_cons.mp hl with ⟨hy, hys⟩
    simp only [insertLe]
    split
    · rename_i hxy
      refine List.pairwise_cons.mpr ⟨?_, hl⟩
      intro z hz
      rcases List.mem_cons.mp hz with h | h
      · subst h; exact hxy
      · exact htrans x y z hxy (hy z h)
    · rename_i hxy
      refine List.pairwise_cons.mpr ⟨?_, ih hys⟩
      intro z hz
      rcases (mem_insertLe le x z ys).mp hz with h | h
      · rcases htot x y with h' | h'
        · exact absurd h' hxy
        · exact h.symm ▸ h'
      · exact hy z h

/-- The stable sort is pairwise sorted for a total transitive order. -/
theorem sortLe_pairwise {α : Type} (le : α → α → Bool)
    (htot : ∀ a b, le a b = true ∨ le b a = true)
    (htrans : ∀ a b c, le a b = true → le b c = true → le a c = true)
    (l : List α) : (sortLe le l).Pairwise (fun a b => le a b = true) := by
  induction l with
  | nil => simp [sortLe]
  | cons x xs ih => exact insertLe_pairwise le htot htrans x (sortLe le xs) ih

/-- Stability of insertion with respect to a fixed key. -/
theorem filter_key_insertLe (x : Row) (l : List Row) (k : String × String) :
    (insertLe rowLe x l).filter (fun r => decide (rowKey r = k))
      = if rowKey x = k then x :: l.filter (fun r => decide (rowKey r = k))
        else l.filter (fun r => decide (rowKey r = k)) := by
  induction l with
  | nil =>
    by_cases hx : rowKey x = k <;> simp [insertLe, hx]
  | cons y ys ih =>
    simp only [insertLe]
    split
    · rename_i hxy
      by_cases hx : rowKey x = k <;> simp [List.filter_cons, hx]
    · rename_i hxy
      by_cases hx : rowKey x = k
      · have hy : ¬ rowKey y = k := by
          intro hy
          exact hxy (rowLe_of_key_eq (hx.trans hy.symm))
        simp [List.filter_cons, hx, hy, ih]
      · by_cases hy : rowKey y = k <;> simp [List.filter_cons, hx, hy, ih]

/-- Stability of the row sort: rows with any fixed key keep their original
relative order. -/
theorem filter_key_sortRows (l : List Row) (k : String × String) :
    (sortRows l).filter (fun r => decide (rowKey r = k))
      = l.filter (fun r => decide (rowKey r = k)) := by
  induction l with
  | nil => rfl
  | cons x xs ih =>
    show (insertLe rowLe x (sortLe rowLe xs)).filter _ = _
    rw [filter_key_insertLe]
    have ih' : (sortLe rowLe xs).filter (fun r => decide (rowKey r = k))
        = xs.filter (fun r => decide (rowKey r = k)) := ih
    by_cases hx : rowKey x = k <;> simp [List.filter_cons, hx, ih']

/-- Modelled from the spec's words, for comparison only: the claimed sort
key is `(normalizeName(composerNameField), lowercase(workTitleField))`,
compared lexicographically. -/
def specRowLe (a b : Row) : Bool :=
  if normalize_name a.name = normalize_name b.name then
    strLe (pyLower a.work) (pyLower b.work)
  else strLe (normalize_name a.name) (normalize_name b.name)

/-- Concrete row for the C6 counterexample: an accented composer name. -/
def rowAcc : Row := ⟨"", "Édith", "", "", "", "A", "", "", "sheerpluck"⟩

/-- Concrete row for the C6 counterexample: an unaccented name earlier than
the accented letter in the claimed normalised order but later in raw
code-point order. -/
def rowZoe : Row := ⟨"", "Zoe", "", "", "", "B", "", "", "sheerpluck"⟩

/-- Tie row for the C6 counterexample: equal sort key, country France. -/
def rowTieA : Row := ⟨"", "Ann Lee", "", "", "France", "T", "", "", "sheerpluck"⟩

/-- Second tie row, equal key to `rowTieA`, country Spain. -/
def rowTieB : Row := ⟨"", "Ann Lee", "", "", "Spain", "T", "", "", "sheerpluck"⟩

/-- C6 counterexample: the loader sorts by `(name.strip().lower(),
work.strip().lower())`, not by `normalizeName` — `"Édith"` keeps its accent
under `lower()` and sorts after `"Zoe"` in code-point order, while the
claimed normalised key would put it first, so the produced order is not
ascending in the claimed key.  Moreover the sort is stable, so two distinct
rows with equal keys keep whichever order the input supplied: the final
order is not independent of the original file order. -/
theorem sort_key_counterexample :
    sortRows [rowAcc, rowZoe] = [rowZoe, rowAcc] ∧
    specRowLe rowAcc rowZoe = true ∧
    specRowLe rowZoe rowAcc = false ∧
    ¬ (sortRows [rowAcc, rowZoe]).Pairwise (fun a b => specRowLe a b = true) ∧
    rowTieA ≠ rowTieB ∧
    sortRows [rowTieA, rowTieB] = [rowTieA, rowTieB] ∧
    sortRows [rowTieB, rowTieA] = [rowTieB, rowTieA] := by
  have hsort : sortRows [rowAcc, rowZoe] = [rowZoe, rowAcc] := by decide
  refine ⟨hsort, by decide, by decide, ?_, by decide, by decide, by decide⟩
  intro h
  rw [hsort] at h
  have := (List.pairwise_cons.mp h).1 rowAcc (List.mem_singleton.mpr rfl)
  revert this
  decide

/-- C6 amended: after loading, the Source Loader stably sorts the combined
row sequence ascending by the key `(lowercase of the stripped composer-name
field, lowercase of the stripped work-title field)` — raw code-point
comparison with no accent folding: the output is a permutation of the
input, it is pairwise ascending in that key, and rows with equal keys keep
their input order, so the final order is independent of the original file
order only up to rows with tied keys. -/
theorem sort_rows_amended :
    (∀ rows : List Row, List.Perm (sortRows rows) rows) ∧
    (∀ rows : List Row, (sortRows rows).Pairwise (fun a b => rowLe a b = true)) ∧
    (∀ (rows : List Row) (k : String × String),
      (sortRows rows).filter (fun r => decide (rowKey r = k))
        = rows.filter (fun r => decide (rowKey r = k))) :=
  ⟨fun rows => sortLe_perm rowLe rows,
   fun rows => sortLe_pairwise rowLe rowLe_total rowLe_trans rows,
   filter_key_sortRows⟩


/-- The dedup deletion loop acts as one filter, and counts exactly the
removed rows. -/
theorem foldl_deleteStep (G : List (String × Nat × Nat)) (l : List Work) (d : Nat) :
    (G.foldl deleteStep (l, d)).1 = l.filter (fun w => G.all (fun g => keepRow g w)) ∧
    (G.foldl deleteStep (l, d)).2
      = d + (l.length - (l.filter (fun w => G.all (fun g => keepRow g w))).length) := by
  induction G generalizing l d with
  | nil => simp
  | cons g G ih =>
    rw [List.foldl_cons]
    have step : deleteStep (l, d) g
        = (l.filter (keepRow g), d + (l.length - (l.filter (keepRow g)).length)) := rfl
    rw [step]
    rcases ih (l.filter (keepRow g)) (d + (l.length - (l.filter (keepRow g)).length)) with
      ⟨h1, h2⟩
    have hff : (l.filter (keepRow g)).filter (fun w => G.all (fun g' => keepRow g' w))
        = l.filter (fun w => (g :: G).all (fun g' => keepRow g' w)) := by
      rw [List.filter_filter]
      apply List.filter_congr
      intro w _
      simp [Bool.and_comm]
    refine ⟨?_, ?_⟩
    · rw [h1, hff]
    · rw [h2, hff]
      have e1 : (l.filter (keepRow g)).length ≤ l.length := l.length_filter_le _
      have e2 : (l.filter (fun w => (g :: G).all (fun g' => keepRow g' w))).length
          ≤ (l.filter (keepRow g)).length := by
        rw [← hff]
        exact (l.filter (keepRow g)).length_filter_le _
      omega



/-- The minimum fold stays below its initial value. -/
theorem foldl_min_le_init (xs : List Nat) (i : Nat) : xs.foldl Nat.min i ≤ i := by
  induction xs generalizing i with
  | nil => exact Nat.le_refl i
  | cons x xs ih =>
    calc xs.foldl Nat.min (Nat.min i x) ≤ Nat.min i x := ih _
      _ ≤ i := Nat.min_le_left _ _

/-- The minimum fold stays below every listed candidate. -/
theorem foldl_min_le_mem (xs : List Nat) : ∀ j i, j ∈ xs → xs.foldl Nat.min i ≤ j := by
  induction xs with
  | nil => intro j i h; simp at h
  | cons x xs ih =>
    intro j i h
    rcases List.mem_cons.mp h with h' | h'
    · subst h'
      calc xs.foldl Nat.min (Nat.min i j) ≤ Nat.min i j := foldl_min_le_init _ _
        _ ≤ j := Nat.min_le_right _ _
    · exact ih j (Nat.min i x) h'

/-- The minimum fold is either the initial value or a listed candidate. -/
theorem foldl_min_mem (xs : List Nat) (i : Nat) : xs.foldl Nat.min i ∈ i :: xs := by
  induction xs generalizing i with
  | nil => simp
  | cons x xs ih =>
    have h := ih (Nat.min i x)
    have hmin : Nat.min i x = i ∨ Nat.min i x = x := by
      rcases Nat.le_total i x with hle | hle
      · exact Or.inl (Nat.min_eq_left hle)
      · exact Or.inr (Nat.min_eq_right hle)
    rw [List.foldl_cons]
    rcases List.mem_cons.mp h with h' | h'
    · rcases hmin with hm | hm
      · rw [h', hm]
        exact List.mem_cons_self _ _
      · rw [h', hm]
        exact List.mem_cons_of_mem _ (List.mem_cons_self _ _)
    · exact List.mem_cons_of_mem _ (List.mem_cons_of_mem _ h')

/-- The group minimum is at most each member's id. -/
theorem minWorkId_le (ws : List Work) (w : Work) (hw : w ∈ ws) :
    minWorkId ws ≤ w.id := by
  have hmem : w.id ∈ ws.map (fun w => w.id) := List.mem_map_of_mem _ hw
  cases hm : ws.map (fun w => w.id) with
  | nil => rw [hm] at hmem; simp at hmem
  | cons i is =>
    have heq : minWorkId ws = is.foldl Nat.min i := by unfold minWorkId; rw [hm]
    rw [heq]
    rw [hm] at hmem
    rcases List.mem_cons.mp hmem with h' | h'
    · rw [h']
      exact foldl_min_le_init _ _
    · exact foldl_min_le_mem is w.id i h'

/-- The group minimum is one of the member ids (for a nonempty group). -/
theorem minWorkId_mem (ws : List Work) (hne : ws ≠ []) :
    minWorkId ws ∈ ws.map (fun w => w.id) := by
  cases hm : ws.map (fun w => w.id) with
  | nil => exact absurd (List.map_eq_nil_iff.mp hm) hne
  | cons i is =>
    have heq : minWorkId ws = is.foldl Nat.min i := by unfold minWorkId; rw [hm]
    rw [heq]
    exact foldl_min_mem is i

/-- Every work is in its own group. -/
theorem mem_own_workGroup (ws : List Work) (w : Work) (hw : w ∈ ws) :
    w ∈ workGroup ws w.title w.composer := by
  simp [workGroup, hw]

/-- Survival under every dedup deletion is equivalent to holding the group
minimum id. -/
theorem all_keepRow_iff (ws : List Work) (w : Work) (hw : w ∈ ws) :
    ((dupGroups ws).all (fun g => keepRow g w)) = true ↔
      w.id = minWorkId (workGroup ws w.title w.composer) := by
  constructor
  · intro hall
    by_cases hlen : 1 < (workGroup ws w.title w.composer).length
    · have hmem : (w.title, w.composer, minWorkId (workGroup ws w.title w.composer))
          ∈ dupGroups ws := by
        apply List.mem_filterMap.mpr
        refine ⟨(w.title, w.composer), ?_, ?_⟩
        · exact List.mem_dedup.mpr (List.mem_map_of_mem _ hw)
        · simp [hlen]
      have := List.all_eq_true.mp hall _ hmem
      simpa [keepRow] using this
    · have hw' := mem_own_workGroup ws w hw
      rcases hg : workGroup ws w.title w.composer with _ | ⟨x, _ | ⟨y, t⟩⟩
      · rw [hg] at hw'; simp at hw'
      · rw [hg] at hw'
        rcases List.mem_singleton.mp hw' with rfl
        simp [minWorkId]
      · rw [hg] at hlen; simp at hlen
  · intro hid
    rw [List.all_eq_true]
    intro g hg
    rcases List.mem_filterMap.mp hg with ⟨k, _, hfk⟩
    by_cases hlen : 1 < (workGroup ws k.1 k.2).length
    · rw [if_pos hlen] at hfk
      injection hfk with hg'
      subst hg'
      by_cases h1 : w.title = k.1
      · by_cases h2 : w.composer = k.2
        · have hmm : minWorkId (workGroup ws k.1 k.2)
              = minWorkId (workGroup ws w.title w.composer) := by rw [h1, h2]
          simp [keepRow, h1, h2, hmm, hid]
        · simp [keepRow, h2]
      · simp [keepRow, h1]
    · rw [if_neg hlen] at hfk
      simp at hfk

/-- The destructive dedup pass keeps exactly the rows holding their group's
minimum id. -/
theorem dedupRun_fst (ws : List Work) :
    (dedupRun ws).1 = ws.filter
      (fun w => decide (w.id = minWorkId (workGroup ws w.title w.composer))) := by
  unfold dedupRun
  rw [(foldl_deleteStep (dupGroups ws) ws 0).1]
  apply List.filter_congr
  intro w hw
  have h := all_keepRow_iff ws w hw
  by_cases hb : (dupGroups ws).all (fun g => keepRow g w) = true
  · rw [hb, eq_comm, decide_eq_true_iff]
    exact h.mp hb
  · have hb' : (dupGroups ws).all (fun g => keepRow g w) = false :=
      Bool.eq_false_iff.mpr hb
    rw [hb', eq_comm, decide_eq_false_iff_not]
    exact fun hc => hb (h.mpr hc)

/-- The dedup deletion counter equals the number of removed rows. -/
theorem dedupRun_snd (ws : List Work) :
    (dedupRun ws).2 = ws.length - (dedupRun ws).1.length := by
  have h1 := (foldl_deleteStep (dupGroups ws) ws 0).1
  have h2 := (foldl_deleteStep (dupGroups ws) ws 0).2
  unfold dedupRun
  rw [h2, ← h1]
  simp [dedupRun]

/-- A duplicate-free list whose members are all equal has at most one
member. -/
theorem length_le_one_of_nodup_all_eq (l : List Nat) (m : Nat) (hn : l.Nodup)
    (ha : ∀ x ∈ l, x = m) : l.length ≤ 1 := by
  match l with
  | [] => simp
  | [x] => simp
  | x :: y :: t =>
    have hx := ha x (List.mem_cons_self _ _)
    have hy := ha y (List.mem_cons_of_mem _ (List.mem_cons_self _ _))
    rw [List.nodup_cons] at hn
    exfalso
    apply hn.1
    rw [hx, ← hy]
    exact List.mem_cons_self _ _

/-- After a destructive dedup run, no `(title, composer)` group has more
than one member, so the duplicate-group snapshot of a second run is
empty. -/
theorem dupGroups_dedupRun_nil (ws : List Work)
    (h : (ws.map (fun w => w.id)).Nodup) : dupGroups (dedupRun ws).1 = [] := by
  unfold dupGroups
  rw [List.filterMap_eq_nil_iff]
  intro k hk
  have hle : (workGroup (dedupRun ws).1 k.1 k.2).length ≤ 1 := by
    have hgsub : (workGroup (dedupRun ws).1 k.1 k.2).Sublist ws := by
      apply List.Sublist.trans (List.filter_sublist _)
      rw [dedupRun_fst]
      exact List.filter_sublist _
    have hnodup : ((workGroup (dedupRun ws).1 k.1 k.2).map (fun w => w.id)).Nodup :=
      h.sublist (hgsub.map _)
    have hall : ∀ x ∈ (workGroup (dedupRun ws).1 k.1 k.2).map (fun w => w.id),
        x = minWorkId (workGroup ws k.1 k.2) := by
      intro x hx
      rcases List.mem_map.mp hx with ⟨w, hwmem, rfl⟩
      have hkey : w.title = k.1 ∧ w.composer = k.2 := by
        have := (List.mem_filter.mp hwmem).2
        simpa [workGroup] using this
      have hwS : w ∈ (dedupRun ws).1 := (List.mem_filter.mp hwmem).1
      rw [dedupRun_fst] at hwS
      have hsurv := (List.mem_filter.mp hwS).2
      rw [decide_eq_true_iff] at hsurv
      rw [hsurv, hkey.1, hkey.2]
    have := length_le_one_of_nodup_all_eq _ _ hnodup hall
    simpa using this
  simp [Nat.not_lt.mpr hle]

/-- A second destructive run over the survivors deletes nothing. -/
theorem dedupRun_idem (ws : List Work) (h : (ws.map (fun w => w.id)).Nodup) :
    dedupRun (dedupRun ws).1 = ((dedupRun ws).1, 0) := by
  have hnil := dupGroups_dedupRun_nil ws h
  rw [dedupRun, hnil]
  rfl

/-- A store of exactly three works sharing one `(title, composer)` key is
collapsed to the single row with the minimum id, deleting two rows, and a
second run deletes nothing. -/
theorem dedup_three (w1 w2 w3 : Work)
    (h2t : w2.title = w1.title) (h2c : w2.composer = w1.composer)
    (h3t : w3.title = w1.title) (h3c : w3.composer = w1.composer)
    (h12 : w1.id ≠ w2.id) (h13 : w1.id ≠ w3.id) (h23 : w2.id ≠ w3.id) :
    (dedupRun [w1, w2, w3]).1.map (fun w => w.id)
        = [Nat.min (Nat.min w1.id w2.id) w3.id] ∧
    (dedupRun [w1, w2, w3]).2 = 2 ∧
    dedupRun (dedupRun [w1, w2, w3]).1 = ((dedupRun [w1, w2, w3]).1, 0) := by
  have hgroup : workGroup [w1, w2, w3] w1.title w1.composer = [w1, w2, w3] := by
    simp [workGroup, h2t, h2c, h3t, h3c]
  have hmin : minWorkId [w1, w2, w3] = Nat.min (Nat.min w1.id w2.id) w3.id := rfl
  have hfilter : (dedupRun [w1, w2, w3]).1
      = [w1, w2, w3].filter
          (fun w => decide (w.id = Nat.min (Nat.min w1.id w2.id) w3.id)) := by
    rw [dedupRun_fst]
    apply List.filter_congr
    intro w hw
    simp only [List.mem_cons, List.not_mem_nil, or_false] at hw
    rcases hw with rfl | rfl | rfl
    · rw [hgroup, hmin]
    · rw [h2t, h2c, hgroup, hmin]
    · rw [h3t, h3c, hgroup, hmin]
  have hnodup : ([w1, w2, w3].map (fun w => w.id)).Nodup := by
    simp [h12, h13, h23]
  have hM := minWorkId_mem [w1, w2, w3] (by simp)
  rw [hmin] at hM
  simp only [List.map_cons, List.map_nil, List.mem_cons, List.not_mem_nil, or_false] at hM
  have key : ∃ wi : Work, (dedupRun [w1, w2, w3]).1 = [wi] ∧
      wi.id = Nat.min (Nat.min w1.id w2.id) w3.id := by
    rcases hM with hMa | hMb | hMc
    · refine ⟨w1, ?_, hMa.symm⟩
      have e2 : ¬(w2.id = Nat.min (Nat.min w1.id w2.id) w3.id) :=
        fun he => h12 (he.trans hMa).symm
      have e3 : ¬(w3.id = Nat.min (Nat.min w1.id w2.id) w3.id) :=
        fun he => h13 (he.trans hMa).symm
      have d1 : (decide (w1.id = Nat.min (Nat.min w1.id w2.id) w3.id)) = true :=
        decide_eq_true hMa.symm
      have d2 : (decide (w2.id = Nat.min (Nat.min w1.id w2.id) w3.id)) = false :=
        decide_eq_false e2
      have d3 : (decide (w3.id = Nat.min (Nat.min w1.id w2.id) w3.id)) = false :=
        decide_eq_false e3
      rw [hfilter]
      simp only [List.filter_cons, List.filter_nil, d1, d2, d3, if_true, if_false]
      rfl
    · refine ⟨w2, ?_, hMb.symm⟩
      have e1 : ¬(w1.id = Nat.min (Nat.min w1.id w2.id) w3.id) :=
        fun he => h12 (he.trans hMb)
      have e3 : ¬(w3.id = Nat.min (Nat.min w1.id w2.id) w3.id) :=
        fun he => h23 (he.trans hMb).symm
      have d1 : (decide (w1.id = Nat.min (Nat.min w1.id w2.id) w3.id)) = false :=
        decide_eq_false e1
      have d2 : (decide (w2.id = Nat.min (Nat.min w1.id w2.id) w3.id)) = true :=
        decide_eq_true hMb.symm
      have d3 : (decide (w3.id = Nat.min (Nat.min w1.id w2.id) w3.id)) = false :=
        decide_eq_false e3
      rw [hfilter]
      simp only [List.filter_cons, List.filter_nil, d1, d2, d3, if_true, if_false]
      rfl
    · refine ⟨w3, ?_, hMc.symm⟩
      have e1 : ¬(w1.id = Nat.min (Nat.min w1.id w2.id) w3.id) :=
        fun he => h13 (he.trans hMc)
      have e2 : ¬(w2.id = Nat.min (Nat.min w1.id w2.id) w3.id) :=
        fun he => h23 (he.trans hMc)
      have d1 : (decide (w1.id = Nat.min (Nat.min w1.id w2.id) w3.id)) = false :=
        decide_eq_false e1
      have d2 : (decide (w2.id = Nat.min (Nat.min w1.id w2.id) w3.id)) = false :=
        decide_eq_false e2
      have d3 : (decide (w3.id = Nat.min (Nat.min w1.id w2.id) w3.id)) = true :=
        decide_eq_true hMc.symm
      rw [hfilter]
      simp only [List.filter_cons, List.filter_nil, d1, d2, d3, if_true, if_false]
      rfl
  rcases key with ⟨wi, hsurv, hid⟩
  refine ⟨?_, ?_, dedupRun_idem _ hnodup⟩
  · rw [hsurv, List.map_cons, List.map_nil, hid]
  · rw [dedupRun_snd, hsurv]
    rfl

/-- C3: a destructive dedup run keeps, in every `(title, composer)` group,
exactly the rows holding the group's minimum id (which is a lower bound of
the whole group), and counts exactly the removed rows; with distinct
primary keys a second run deletes nothing; and on a store of exactly three
works sharing one key it leaves exactly the single lowest-id row, deletes
the other two, and an immediately following run deletes zero rows. -/
theorem dedup_claim :
    (∀ ws : List Work,
      (dedupRun ws).1 = ws.filter
        (fun w => decide (w.id = minWorkId (workGroup ws w.title w.composer))) ∧
      (dedupRun ws).2 = ws.length - (dedupRun ws).1.length ∧
      ∀ w ∈ ws, minWorkId (workGroup ws w.title w.composer) ≤ w.id) ∧
    (∀ ws : List Work, (ws.map (fun w => w.id)).Nodup →
      dedupRun (dedupRun ws).1 = ((dedupRun ws).1, 0)) ∧
    (∀ w1 w2 w3 : Work, w2.title = w1.title → w2.composer = w1.composer →
      w3.title = w1.title → w3.composer = w1.composer →
      w1.id ≠ w2.id → w1.id ≠ w3.id → w2.id ≠ w3.id →
      (dedupRun [w1, w2, w3]).1.map (fun w => w.id)
          = [Nat.min (Nat.min w1.id w2.id) w3.id] ∧
      (dedupRun [w1, w2, w3]).2 = 2 ∧
      dedupRun (dedupRun [w1, w2, w3]).1 = ((dedupRun [w1, w2, w3]).1, 0)) :=
  ⟨fun ws => ⟨dedupRun_fst ws, dedupRun_snd ws,
      fun w hw => minWorkId_le _ w (mem_own_workGroup ws w hw)⟩,
    dedupRun_idem,
    dedup_three⟩

/-- Concrete works for the C3 witness: ids 5, 3 and 9 sharing one key. -/
def workA : Work := ⟨5, 1, "Suite", "suite", none, "", Src.sheerpluck, "", true, "", ""⟩

/-- Second C3 witness work. -/
def workB : Work := ⟨3, 1, "Suite", "suite", none, "", Src.sheerpluck, "", true, "", ""⟩

/-- Third C3 witness work. -/
def workC : Work := ⟨9, 1, "Suite", "suite", none, "", Src.sheerpluck, "", true, "", ""⟩

/-- Witness for C3 at the concrete three-row store. -/
theorem dedup_claim_witness :
    (dedupRun [workA, workB, workC]).1.map (fun w => w.id)
        = [Nat.min (Nat.min workA.id workB.id) workC.id] ∧
    (dedupRun [workA, workB, workC]).2 = 2 ∧
    dedupRun (dedupRun [workA, workB, workC]).1
        = ((dedupRun [workA, workB, workC]).1, 0) :=
  dedup_claim.2.2 workA workB workC rfl rfl rfl rfl (by decide) (by decide) (by decide)

/-- Field-level description of the merge: instrumentation category and
detail are overwritten unconditionally, `external_id` is backfilled only
when empty, the source-appropriate link field is backfilled only when
empty, and identity fields are untouched. -/
theorem mergeFields_fields (w0 : Work) (icat : Option Nat) (instr e l s : String) :
    (mergeFields w0 icat instr e l s).instrCat = icat ∧
    (mergeFields w0 icat instr e l s).instrDetail = instr ∧
    (mergeFields w0 icat instr e l s).externalId
      = (if e ≠ "" ∧ w0.externalId = "" then e else w0.externalId) ∧
    (mergeFields w0 icat instr e l s).imslpUrl
      = (if l ≠ "" ∧ s = "imslp" ∧ w0.imslpUrl = "" then l else w0.imslpUrl) ∧
    (mergeFields w0 icat instr e l s).scoreUrl
      = (if l ≠ "" ∧ s = "sheerpluck" ∧ w0.scoreUrl = "" then l else w0.scoreUrl) ∧
    (mergeFields w0 icat instr e l s).title = w0.title ∧
    (mergeFields w0 icat instr e l s).composer = w0.composer ∧
    (mergeFields w0 icat instr e l s).dataSource = w0.dataSource ∧
    (mergeFields w0 icat instr e l s).id = w0.id := by
  unfold mergeFields
  split_ifs <;> simp_all <;> (split_ifs <;> simp_all)

/-- C2: when a processed row with non-empty composer name and work title
finds an existing work, the work is found first by exact
`(external_id, data_source)` — attempted only for a non-empty external id —
and otherwise by exact `(title, composer)`; the found work is updated in
place (no row added): instrumentation category and detail are overwritten
unconditionally with the row's values, `external_id` is written only if the
stored value is empty, `imslp_url` (for the IMSLP source) respectively
`score_url` (for the Sheerpluck source) is written only if currently empty;
and the outcome counts as skipped/merged, not as a creation. -/
theorem work_merge_policy :
    (∀ (st st1 st2 st3 : RunState) (r : Row) (co icat : Option Nat) (cid : Nat) (w : Work),
      ¬ pyStrip r.name = "" → ¬ pyStrip r.work = "" →
      countryStage st r = (st1, co) →
      composerStage st1 r co = (st2, cid) →
      instrStage st2 r = (st3, icat) →
      workLookup st3.store.works (pyStrip r.id) (rowDataSource r) (pyStrip r.work) cid
        = some w →
      ((processRow st r).store.works
          = st3.store.works.map (fun x => if x.id = w.id then
              mergeFields w icat (pyStrip r.instrumentation) (pyStrip r.id)
                (pyStrip r.link) r.source else x) ∧
        (processRow st r).stats.worksCreated = st3.stats.worksCreated ∧
        (processRow st r).stats.worksSkipped = st3.stats.worksSkipped + 1 ∧
        (processRow st r).store.works.length = st3.store.works.length)) ∧
    (∀ (w0 : Work) (icat : Option Nat) (instr e l s : String),
      (mergeFields w0 icat instr e l s).instrCat = icat ∧
      (mergeFields w0 icat instr e l s).instrDetail = instr ∧
      (mergeFields w0 icat instr e l s).externalId
        = (if e ≠ "" ∧ w0.externalId = "" then e else w0.externalId) ∧
      (mergeFields w0 icat instr e l s).imslpUrl
        = (if l ≠ "" ∧ s = "imslp" ∧ w0.imslpUrl = "" then l else w0.imslpUrl) ∧
      (mergeFields w0 icat instr e l s).scoreUrl
        = (if l ≠ "" ∧ s = "sheerpluck" ∧ w0.scoreUrl = "" then l else w0.scoreUrl) ∧
      (mergeFields w0 icat instr e l s).title = w0.title ∧
      (mergeFields w0 icat instr e l s).composer = w0.composer ∧
      (mergeFields w0 icat instr e l s).dataSource = w0.dataSource ∧
      (mergeFields w0 icat instr e l s).id = w0.id) ∧
    (∀ (ws : List Work) (ds : Src) (t : String) (c : Nat),
      workLookup ws "" ds t c
        = ws.find? (fun x => decide (x.title = t) && decide (x.composer = c))) ∧
    (∀ (ws : List Work) (e : String) (ds : Src) (t : String) (c : Nat) (w0 : Work),
      e ≠ "" →
      ws.find? (fun x => decide (x.externalId = e) && decide (x.dataSource = ds))
        = some w0 →
      workLookup ws e ds t c = some w0) ∧
    (∀ (ws : List Work) (e : String) (ds : Src) (t : String) (c : Nat),
      ws.find? (fun x => decide (x.externalId = e) && decide (x.dataSource = ds)) = none →
      workLookup ws e ds t c
        = ws.find? (fun x => decide (x.title = t) && decide (x.composer = c))) := by
  refine ⟨?_, mergeFields_fields, ?_, ?_, ?_⟩
  · intro st st1 st2 st3 r co icat cid w hn ht hc hk hi hfound
    have hb : (pyStrip r.name = "" || pyStrip r.work = "") = false := by
      simp [hn, ht]
    simp only [processRow, hb, Bool.false_eq_true, if_false, hc, hk, hi]
    simp only [workStage, hfound]
    simp
  · intro ws ds t c
    simp [workLookup]
  · intro ws e ds t c w0 he hf
    simp only [workLookup, if_pos he, hf]
  · intro ws e ds t c hf
    by_cases he : e = ""
    · subst he
      simp [workLookup]
    · simp only [workLookup, if_pos he, hf]

/-- Store for the C2 witness: one composer and one matching work. -/
def storeC2 : Store :=
  ⟨[], [],
    [⟨0, "Ann Lee", "Ann", "Lee", "ann lee", some 1950, none, true, none,
      Src.sheerpluck, true⟩],
    [⟨0, 0, "Suite", "suite", none, "", Src.sheerpluck, "7", true, "", ""⟩],
    0, 0, 1, 1⟩

/-- Row for the C2 witness, matching the stored work by external id. -/
def rowC2 : Row := ⟨"7", "Ann Lee", "1950", "", "", "Suite", "Solo", "http://s", "sheerpluck"⟩

/-- The stored work the C2 witness row merges into. -/
def workC2 : Work := ⟨0, 0, "Suite", "suite", none, "", Src.sheerpluck, "7", true, "", ""⟩

/-- Witness for C2: a concrete merge increments the skipped counter and
creates nothing. -/
theorem work_merge_policy_witness :
    (processRow (initState storeC2) rowC2).stats.worksCreated
      = (instrStage (composerStage (countryStage (initState storeC2) rowC2).1 rowC2
          (countryStage (initState storeC2) rowC2).2).1 rowC2).1.stats.worksCreated ∧
    (processRow (initState storeC2) rowC2).stats.worksSkipped
      = (instrStage (composerStage (countryStage (initState storeC2) rowC2).1 rowC2
          (countryStage (initState storeC2) rowC2).2).1 rowC2).1.stats.worksSkipped + 1 := by
  have h := work_merge_policy.1 (initState storeC2)
    (countryStage (initState storeC2) rowC2).1
    (composerStage (countryStage (initState storeC2) rowC2).1 rowC2
      (countryStage (initState storeC2) rowC2).2).1
    (instrStage (composerStage (countryStage (initState storeC2) rowC2).1 rowC2
      (countryStage (initState storeC2) rowC2).2).1 rowC2).1
    rowC2
    (countryStage (initState storeC2) rowC2).2
    (instrStage (composerStage (countryStage (initState storeC2) rowC2).1 rowC2
      (countryStage (initState storeC2) rowC2).2).1 rowC2).2
    (composerStage (countryStage (initState storeC2) rowC2).1 rowC2
      (countryStage (initState storeC2) rowC2).2).2
    workC2 (by decide) (by decide) rfl rfl rfl (by decide)
  exact ⟨h.2.1, h.2.2.1⟩

/-- Store well-formedness: primary keys are unique and below the
auto-increment counters — the invariant any relational store maintains. -/
def WFStore (s : Store) : Prop :=
  (s.composers.map (fun c => c.id)).Nodup ∧
  (∀ c ∈ s.composers, c.id < s.nextComposerId) ∧
  (s.works.map (fun w => w.id)).Nodup ∧
  (∀ w ∈ s.works, w.id < s.nextWorkId)

/-- Saving a mutated composer row: replace the row with the given primary
key. -/
def updateById (cs : List Composer) (i : Nat) (c' : Composer) : List Composer :=
  cs.map (fun x => if x.id = i then c' else x)

/-- Saving a mutated work row: replace the row with the given primary
key. -/
def updateWById (ws : List Work) (i : Nat) (w' : Work) : List Work :=
  ws.map (fun x => if x.id = i then w' else x)

/-- The fields of a composer row the resolver's lookups read, preserved by
every update the pipeline performs. -/
def matchFields (a b : Composer) : Prop :=
  b.id = a.id ∧ b.fullName = a.fullName ∧ b.birthYear = a.birthYear

/-- The fields of a work row the resolver's lookups read, preserved by every
merge the pipeline performs (a non-empty external id is never
overwritten). -/
def WPres (w w' : Work) : Prop :=
  w'.id = w.id ∧ w'.title = w.title ∧ w'.composer = w.composer ∧
  w'.dataSource = w.dataSource ∧ (w.externalId ≠ "" → w'.externalId = w.externalId)

/-- The composer-cache key of a row. -/
def rowCacheKey (r : Row) : String :=
  composerCacheKey (pyStrip r.name) (parseYear r.birthYearRaw) (parseYear r.deathYearRaw)

/-- The composer id a row resolves to. -/
def rowCid (st : RunState) (r : Row) : Nat :=
  (composerStage (countryStage st r).1 r (countryStage st r).2).2

/-- Effects of the country stage: only the country table, country cache and
no other component change. -/
theorem countryStage_frame (st : RunState) (r : Row) :
    (countryStage st r).1.store.composers = st.store.composers ∧
    (countryStage st r).1.store.works = st.store.works ∧
    (countryStage st r).1.store.nextComposerId = st.store.nextComposerId ∧
    (countryStage st r).1.store.nextWorkId = st.store.nextWorkId ∧
    (countryStage st r).1.composerCache = st.composerCache ∧
    (countryStage st r).1.stats.composersCreated = st.stats.composersCreated ∧
    (countryStage st r).1.stats.worksCreated = st.stats.worksCreated := by
  unfold countryStage getOrCreateCountry
  split
  · cases List.lookup (pyStrip r.country) st.countryCache with
    | some cid => exact ⟨rfl, rfl, rfl, rfl, rfl, rfl, rfl⟩
    | none =>
      cases List.find? (fun p => decide (p.2 = pyStrip r.country)) st.store.countries with
      | some p => exact ⟨rfl, rfl, rfl, rfl, rfl, rfl, rfl⟩
      | none => exact ⟨rfl, rfl, rfl, rfl, rfl, rfl, rfl⟩
  · exact ⟨rfl, rfl, rfl, rfl, rfl, rfl, rfl⟩

/-- Effects of the instrumentation stage. -/
theorem instrStage_frame (st : RunState) (r : Row) :
    (instrStage st r).1.store.composers = st.store.composers ∧
    (instrStage st r).1.store.works = st.store.works ∧
    (instrStage st r).1.store.nextComposerId = st.store.nextComposerId ∧
    (instrStage st r).1.store.nextWorkId = st.store.nextWorkId ∧
    (instrStage st r).1.composerCache = st.composerCache ∧
    (instrStage st r).1.stats.composersCreated = st.stats.composersCreated ∧
    (instrStage st r).1.stats.worksCreated = st.stats.worksCreated := by
  unfold instrStage getOrCreateInstr
  split
  · cases List.lookup (pyStrip r.instrumentation) st.instrCache with
    | some iid => exact ⟨rfl, rfl, rfl, rfl, rfl, rfl, rfl⟩
    | none =>
      cases List.find? (fun p => decide (p.2 = pyStrip r.instrumentation)) st.store.instrs with
      | some p => exact ⟨rfl, rfl, rfl, rfl, rfl, rfl, rfl⟩
      | none => exact ⟨rfl, rfl, rfl, rfl, rfl, rfl, rfl⟩
  · exact ⟨rfl, rfl, rfl, rfl, rfl, rfl, rfl⟩

/-- Cache-hit resolution: the state is untouched and the cached id
returned. -/
theorem getOrCreateComposer_hit (st : RunState) (n : String) (b d : Option Int)
    (co : Option Nat) (ds : Src) (cid : Nat)
    (h : st.composerCache.lookup (composerCacheKey n b d) = some cid) :
    getOrCreateComposer st n b d co ds = (st, cid) := by
  simp only [getOrCreateComposer]
  rw [h]

/-- Cache-miss resolution finding an existing composer: the found id is
returned and cached; the composer list is unchanged or point-updated
preserving the lookup fields; nothing else relevant moves. -/
theorem getOrCreateComposer_found (st : RunState) (n : String) (b d : Option Int)
    (co : Option Nat) (ds : Src) (c : Composer)
    (hm : st.composerCache.lookup (composerCacheKey n b d) = none)
    (hf : compFind st.store.composers n b = some c) :
    (getOrCreateComposer st n b d co ds).2 = c.id ∧
    (getOrCreateComposer st n b d co ds).1.composerCache
      = (composerCacheKey n b d, c.id) :: st.composerCache ∧
    (getOrCreateComposer st n b d co ds).1.store.works = st.store.works ∧
    (getOrCreateComposer st n b d co ds).1.store.nextWorkId = st.store.nextWorkId ∧
    (getOrCreateComposer st n b d co ds).1.store.nextComposerId
      = st.store.nextComposerId ∧
    (getOrCreateComposer st n b d co ds).1.stats.composersCreated
      = st.stats.composersCreated ∧
    (getOrCreateComposer st n b d co ds).1.stats.worksCreated
      = st.stats.worksCreated ∧
    ((getOrCreateComposer st n b d co ds).1.store.composers = st.store.composers ∨
      ∃ c', matchFields c c' ∧
        (getOrCreateComposer st n b d co ds).1.store.composers
          = updateById st.store.composers c.id c') := by
  simp only [getOrCreateComposer]
  rw [hm, hf]
  dsimp only
  refine ⟨rfl, rfl, ?_, ?_, ?_, ?_, ?_, ?_⟩
  · split <;> rfl
  · split <;> rfl
  · split <;> rfl
  · split <;> rfl
  · split <;> rfl
  · split
    · refine Or.inr ⟨{ c with
        deathYear := if (!pyTruthyInt c.deathYear && pyTruthyInt d) = true then d
          else c.deathYear,
        country := if (c.country.isNone && co.isSome) = true then co
          else c.country }, ⟨rfl, rfl, rfl⟩, ?_⟩
      rfl
    · exact Or.inl rfl

/-- Cache-miss resolution with no store match: a fresh composer carrying the
looked-up name and birth year is appended under the next free id, the
creation is counted, and the id is cached. -/
theorem getOrCreateComposer_create (st : RunState) (n : String) (b d : Option Int)
    (co : Option Nat) (ds : Src)
    (hm : st.composerCache.lookup (composerCacheKey n b d) = none)
    (hf : compFind st.store.composers n b = none) :
    (getOrCreateComposer st n b d co ds).2 = st.store.nextComposerId ∧
    (getOrCreateComposer st n b d co ds).1.composerCache
      = (composerCacheKey n b d, st.store.nextComposerId) :: st.composerCache ∧
    (getOrCreateComposer st n b d co ds).1.store.works = st.store.works ∧
    (getOrCreateComposer st n b d co ds).1.store.nextWorkId = st.store.nextWorkId ∧
    (getOrCreateComposer st n b d co ds).1.store.nextComposerId
      = st.store.nextComposerId + 1 ∧
    (getOrCreateComposer st n b d co ds).1.stats.composersCreated
      = st.stats.composersCreated + 1 ∧
    (getOrCreateComposer st n b d co ds).1.stats.worksCreated
      = st.stats.worksCreated ∧
    ∃ cnew, cnew.id = st.store.nextComposerId ∧ cnew.fullName = n ∧
      cnew.birthYear = b ∧
      (getOrCreateComposer st n b d co ds).1.store.composers
        = st.store.composers ++ [cnew] := by
  simp only [getOrCreateComposer]
  rw [hm, hf]
  dsimp only
  refine ⟨rfl, rfl, rfl, rfl, rfl, rfl, rfl, ?_⟩
  exact ⟨_, rfl, rfl, rfl, rfl⟩

/-- Merge branch of the work stage: the found work is updated in place
preserving the lookup fields; no row is added and nothing is counted as a
creation. -/
theorem workStage_merge (st : RunState) (r : Row) (cid : Nat) (icat : Option Nat)
    (w : Work)
    (hfound : workLookup st.store.works (pyStrip r.id) (rowDataSource r)
      (pyStrip r.work) cid = some w) :
    (workStage st r cid icat).store.works
      = updateWById st.store.works w.id
          (mergeFields w icat (pyStrip r.instrumentation) (pyStrip r.id)
            (pyStrip r.link) r.source) ∧
    WPres w (mergeFields w icat (pyStrip r.instrumentation) (pyStrip r.id)
      (pyStrip r.link) r.source) ∧
    w ∈ st.store.works ∧
    (workStage st r cid icat).store.composers = st.store.composers ∧
    (workStage st r cid icat).store.nextComposerId = st.store.nextComposerId ∧
    (workStage st r cid icat).store.nextWorkId = st.store.nextWorkId ∧
    (workStage st r cid icat).composerCache = st.composerCache ∧
    (workStage st r cid icat).stats.composersCreated = st.stats.composersCreated ∧
    (workStage st r cid icat).stats.worksCreated = st.stats.worksCreated := by
  have hw : w ∈ st.store.works := by
    unfold workLookup at hfound
    rcases hx : (if pyStrip r.id ≠ "" then
        st.store.works.find? (fun x =>
          decide (x.externalId = pyStrip r.id) && decide (x.dataSource = rowDataSource r))
      else none) with _ | w'
    · rw [hx] at hfound
      simp only [] at hfound
      exact List.mem_of_find?_eq_some hfound
    · rw [hx] at hfound
      simp only [Option.some.injEq] at hfound
      subst hfound
      split at hx
      · exact List.mem_of_find?_eq_some hx
      · simp at hx
  have hpres : WPres w (mergeFields w icat (pyStrip r.instrumentation) (pyStrip r.id)
      (pyStrip r.link) r.source) := by
    rcases mergeFields_fields w icat (pyStrip r.instrumentation) (pyStrip r.id)
      (pyStrip r.link) r.source with ⟨_, _, hext, _, _, htitle, hcomp, hds, hid⟩
    refine ⟨hid, htitle, hcomp, hds, ?_⟩
    intro hne
    rw [hext]
    split
    · rename_i hcond
      exact absurd hcond.2 hne
    · rfl
  unfold workStage
  rw [hfound]
  exact ⟨rfl, hpres, hw, rfl, rfl, rfl, rfl, rfl, rfl⟩

/-- Create branch of the work stage: a fresh work carrying the row's title,
composer, external id and source is appended under the next free id, and
the creation is counted. -/
theorem workStage_create (st : RunState) (r : Row) (cid : Nat) (icat : Option Nat)
    (hnone : workLookup st.store.works (pyStrip r.id) (rowDataSource r)
      (pyStrip r.work) cid = none) :
    (∃ wnew, wnew.id = st.store.nextWorkId ∧ wnew.title = pyStrip r.work ∧
      wnew.composer = cid ∧ wnew.externalId = pyStrip r.id ∧
      wnew.dataSource = rowDataSource r ∧
      (workStage st r cid icat).store.works = st.store.works ++ [wnew]) ∧
    (workStage st r cid icat).store.nextWorkId = st.store.nextWorkId + 1 ∧
    (workStage st r cid icat).store.composers = st.store.composers ∧
    (workStage st r cid icat).store.nextComposerId = st.store.nextComposerId ∧
    (workStage st r cid icat).composerCache = st.composerCache ∧
    (workStage st r cid icat).stats.composersCreated = st.stats.composersCreated ∧
    (workStage st r cid icat).stats.worksCreated = st.stats.worksCreated + 1 := by
  unfold workStage
  rw [hnone]
  exact ⟨⟨_, rfl, rfl, rfl, rfl, rfl, rfl⟩, rfl, rfl, rfl, rfl, rfl, rfl⟩

/-- A row failing validation leaves everything except the error counter
unchanged. -/
theorem processRow_invalid (st : RunState) (r : Row)
    (h : pyStrip r.name = "" ∨ pyStrip r.work = "") :
    processRow st r
      = { st with stats := { st.stats with errors := st.stats.errors + 1 } } := by
  have hb : (pyStrip r.name = "" || pyStrip r.work = "") = true := by
    rcases h with h | h <;> simp [h]
  simp [processRow, hb]

/-- A validated row is processed through the four stages. -/
theorem processRow_unfold (st : RunState) (r : Row)
    (hn : pyStrip r.name ≠ "") (ht : pyStrip r.work ≠ "") :
    processRow st r
      = workStage (instrStage (composerStage (countryStage st r).1 r
            (countryStage st r).2).1 r).1 r
          (composerStage (countryStage st r).1 r (countryStage st r).2).2
          (instrStage (composerStage (countryStage st r).1 r
            (countryStage st r).2).1 r).2 := by
  have hb : (pyStrip r.name = "" || pyStrip r.work = "") = false := by
    simp [hn, ht]
  simp only [processRow, hb, Bool.false_eq_true, if_false]

/-- The work stage never touches composers, the composer cache or the
composer counters. -/
theorem workStage_frame (st : RunState) (r : Row) (cid : Nat) (icat : Option Nat) :
    (workStage st r cid icat).store.composers = st.store.composers ∧
    (workStage st r cid icat).store.nextComposerId = st.store.nextComposerId ∧
    (workStage st r cid icat).composerCache = st.composerCache ∧
    (workStage st r cid icat).stats.composersCreated = st.stats.composersCreated := by
  unfold workStage
  cases workLookup st.store.works (pyStrip r.id) (rowDataSource r) (pyStrip r.work) cid with
  | some w => exact ⟨rfl, rfl, rfl, rfl⟩
  | none => exact ⟨rfl, rfl, rfl, rfl⟩

/-- The composer stage never touches works or the work counters. -/
theorem composerStage_works_frame (st : RunState) (r : Row) (co : Option Nat) :
    (composerStage st r co).1.store.works = st.store.works ∧
    (composerStage st r co).1.store.nextWorkId = st.store.nextWorkId ∧
    (composerStage st r co).1.stats.worksCreated = st.stats.worksCreated := by
  unfold composerStage
  cases hm : st.composerCache.lookup (composerCacheKey (pyStrip r.name)
      (parseYear r.birthYearRaw) (parseYear r.deathYearRaw)) with
  | some cid =>
    rw [getOrCreateComposer_hit st _ _ _ _ _ cid hm]
    exact ⟨rfl, rfl, rfl⟩
  | none =>
    cases hf : compFind st.store.composers (pyStrip r.name) (parseYear r.birthYearRaw) with
    | some c =>
      rcases getOrCreateComposer_found st _ _ _ co (rowDataSource r) c hm hf with
        ⟨_, _, hw, hnw, _, _, hwc, _⟩
      exact ⟨hw, hnw, hwc⟩
    | none =>
      rcases getOrCreateComposer_create st _ _ _ co (rowDataSource r) hm hf with
        ⟨_, _, hw, hnw, _, _, hwc, _⟩
      exact ⟨hw, hnw, hwc⟩

/-- Replacing a row by one with the same id leaves the id sequence
unchanged. -/
theorem updateById_map_id (cs : List Composer) (i : Nat) (c' : Composer)
    (hid : c'.id = i) :
    (updateById cs i c').map (fun c => c.id) = cs.map (fun c => c.id) := by
  unfold updateById
  rw [List.map_map]
  apply List.map_congr_left
  intro x _
  by_cases hx : x.id = i <;> simp [hx, hid]

/-- Work version of `updateById_map_id`. -/
theorem updateWById_map_id (ws : List Work) (i : Nat) (w' : Work)
    (hid : w'.id = i) :
    (updateWById ws i w').map (fun w => w.id) = ws.map (fun w => w.id) := by
  unfold updateWById
  rw [List.map_map]
  apply List.map_congr_left
  intro x _
  by_cases hx : x.id = i <;> simp [hx, hid]

/-- Pointwise-on-members congruence for `find?`. -/
theorem find?_congr_mem {α : Type} (p q : α → Bool) (l : List α)
    (h : ∀ x ∈ l, p x = q x) : l.find? p = l.find? q := by
  induction l with
  | nil => rfl
  | cons x xs ih =>
    rw [List.find?_cons, List.find?_cons, h x (List.mem_cons_self _ _)]
    cases q x with
    | true => rfl
    | false => exact ih (fun y hy => h y (List.mem_cons_of_mem _ hy))

/-- A composer lookup survives an in-place update that preserves the lookup
fields of the row it replaces (ids unique). -/
theorem compFind_updateById (cs : List Composer) (c0 c' : Composer)
    (hnodup : (cs.map (fun c => c.id)).Nodup) (hc0 : c0 ∈ cs)
    (hmf : matchFields c0 c') (n : String) (b : Option Int) (c : Composer)
    (hfind : compFind cs n b = some c) :
    ∃ c'', compFind (updateById cs c0.id c') n b = some c'' ∧ c''.id = c.id := by
  rcases hmf with ⟨hid, hname, hbirth⟩
  unfold compFind updateById at *
  rw [List.find?_map]
  have hcong : cs.find? ((fun x => decide (x.fullName = n) && decide (x.birthYear = b)) ∘
      (fun x => if x.id = c0.id then c' else x)) = cs.find?
      (fun x => decide (x.fullName = n) && decide (x.birthYear = b)) := by
    apply find?_congr_mem
    intro x hx
    by_cases hxid : x.id = c0.id
    · have hxc0 : x = c0 := List.inj_on_of_nodup_map hnodup hx hc0 hxid
      subst hxc0
      simp [hname, hbirth]
    · simp [hxid]
  rw [hcong, hfind]
  refine ⟨_, rfl, ?_⟩
  by_cases hcid : c.id = c0.id <;> simp [hcid, hid]

/-- The ways a row can match a stored work: by non-empty external id and
source, or by title and composer. -/
def WMatch (e : String) (ds : Src) (t : String) (c : Nat) (w : Work) : Prop :=
  (e ≠ "" ∧ w.externalId = e ∧ w.dataSource = ds) ∨ (w.title = t ∧ w.composer = c)

/-- A work match survives an in-place merge that preserves the lookup
fields (ids unique). -/
theorem wmatch_updateWById (ws : List Work) (w0 w' : Work)
    (hnodup : (ws.map (fun w => w.id)).Nodup) (hw0 : w0 ∈ ws) (hp : WPres w0 w')
    (e : String) (ds : Src) (t : String) (c : Nat)
    (hex : ∃ w ∈ ws, WMatch e ds t c w) :
    ∃ w ∈ updateWById ws w0.id w', WMatch e ds t c w := by
  rcases hex with ⟨x, hx, hm⟩
  refine ⟨(fun y => if y.id = w0.id then w' else y) x, List.mem_map_of_mem _ hx, ?_⟩
  by_cases hxid : x.id = w0.id
  · have hxw0 : x = w0 := List.inj_on_of_nodup_map hnodup hx hw0 hxid
    subst hxw0
    rcases hp with ⟨hid, htitle, hcomp, hds, hext⟩
    simp only [if_pos hxid]
    rcases hm with ⟨hne, hw, hsrc⟩ | ⟨hw, hc⟩
    · have : x.externalId ≠ "" := by rw [hw]; exact hne
      exact Or.inl ⟨hne, (hext this).trans hw, hds.trans hsrc⟩
    · exact Or.inr ⟨htitle.trans hw, hcomp.trans hc⟩
  · simp only [if_neg hxid]
    exact hm

/-- A work match survives appending new rows. -/
theorem wmatch_append (ws l : List Work) (e : String) (ds : Src) (t : String) (c : Nat)
    (hex : ∃ w ∈ ws, WMatch e ds t c w) :
    ∃ w ∈ ws ++ l, WMatch e ds t c w := by
  rcases hex with ⟨x, hx, hm⟩
  exact ⟨x, List.mem_append_left _ hx, hm⟩

/-- One processed row preserves every composer lookup result up to id. -/
theorem processRow_compFind (st : RunState) (r : Row) (n : String) (b : Option Int)
    (c : Composer) (hwf : WFStore st.store)
    (hfind : compFind st.store.composers n b = some c) :
    ∃ c', compFind (processRow st r).store.composers n b = some c' ∧ c'.id = c.id := by
  by_cases hv : pyStrip r.name = "" ∨ pyStrip r.work = ""
  · rw [processRow_invalid st r hv]
    exact ⟨c, hfind, rfl⟩
  · push_neg at hv
    rw [processRow_unfold st r hv.1 hv.2]
    have hc1 := (countryStage_frame st r).1
    have hw4 := (workStage_frame (instrStage (composerStage (countryStage st r).1 r
      (countryStage st r).2).1 r).1 r
      (composerStage (countryStage st r).1 r (countryStage st r).2).2
      (instrStage (composerStage (countryStage st r).1 r (countryStage st r).2).1 r).2).1
    have hc3 := (instrStage_frame (composerStage (countryStage st r).1 r
      (countryStage st r).2).1 r).1
    rw [hw4, hc3]
    unfold composerStage
    cases hm : (countryStage st r).1.composerCache.lookup
        (composerCacheKey (pyStrip r.name) (parseYear r.birthYearRaw)
          (parseYear r.deathYearRaw)) with
    | some cid =>
      rw [getOrCreateComposer_hit _ _ _ _ _ _ cid hm, hc1]
      exact ⟨c, hfind, rfl⟩
    | none =>
      cases hf : compFind (countryStage st r).1.store.composers (pyStrip r.name)
          (parseYear r.birthYearRaw) with
      | some c0 =>
        rcases getOrCreateComposer_found (countryStage st r).1 _ _ _
          (countryStage st r).2 (rowDataSource r) c0 hm hf with
          ⟨_, _, _, _, _, _, _, hdisj⟩
        rcases hdisj with hsame | ⟨c', hmf, hupd⟩
        · rw [hsame, hc1]
          exact ⟨c, hfind, rfl⟩
        · rw [hupd, hc1]
          rw [hc1] at hf
          apply compFind_updateById st.store.composers c0 c' hwf.1 _ hmf n b c hfind
          exact List.mem_of_find?_eq_some hf
      | none =>
        rcases getOrCreateComposer_create (countryStage st r).1 _ _ _
          (countryStage st r).2 (rowDataSource r) hm hf with
          ⟨_, _, _, _, _, _, _, cnew, _, _, _, happ⟩
        rw [happ, hc1]
        unfold compFind at hfind ⊢
        rw [List.find?_append, hfind]
        exact ⟨c, rfl, rfl⟩

/-- One processed row preserves every work match. -/
theorem processRow_wmatch (st : RunState) (r : Row) (e : String) (ds : Src)
    (t : String) (c : Nat) (hwf : WFStore st.store)
    (hex : ∃ w ∈ st.store.works, WMatch e ds t c w) :
    ∃ w ∈ (processRow st r).store.works, WMatch e ds t c w := by
  by_cases hv : pyStrip r.name = "" ∨ pyStrip r.work = ""
  · rw [processRow_invalid st r hv]
    exact hex
  · push_neg at hv
    rw [processRow_unfold st r hv.1 hv.2]
    have hc1 := (countryStage_frame st r).2.1
    have hc2 := (composerStage_works_frame (countryStage st r).1 r
      (countryStage st r).2).1
    have hc3 := (instrStage_frame (composerStage (countryStage st r).1 r
      (countryStage st r).2).1 r).2.1
    have hworks : (instrStage (composerStage (countryStage st r).1 r
        (countryStage st r).2).1 r).1.store.works = st.store.works := by
      rw [hc3, hc2, hc1]
    cases hlk : workLookup (instrStage (composerStage (countryStage st r).1 r
        (countryStage st r).2).1 r).1.store.works (pyStrip r.id) (rowDataSource r)
        (pyStrip r.work)
        (composerStage (countryStage st r).1 r (countryStage st r).2).2 with
    | some w0 =>
      rcases workStage_merge _ r _ _ w0 hlk with ⟨hupd, hpres, hw0, _⟩
      rw [hupd, hworks]
      rw [hworks] at hw0
      exact wmatch_updateWById st.store.works w0 _ hwf.2.2.1 hw0 hpres e ds t c hex
    | none =>
      rcases workStage_create _ r _ _ hlk with ⟨⟨wnew, _, _, _, _, _, happ⟩, _⟩
      rw [happ, hworks]
      exact wmatch_append _ _ e ds t c hex

/-- Appending a fresh id keeps the id list duplicate-free. -/
theorem nodup_append_fresh (l : List Nat) (n : Nat) (hn : l.Nodup)
    (hb : ∀ x ∈ l, x < n) : (l ++ [n]).Nodup := by
  rw [List.nodup_append]
  refine ⟨hn, List.nodup_singleton n, ?_⟩
  intro x hx hmem
  rcases List.mem_singleton.mp hmem with rfl
  exact absurd (hb x hx) (lt_irrefl x)


/-- The country stage preserves store well-formedness. -/
theorem countryStage_WF (st : RunState) (r : Row) (h : WFStore st.store) :
    WFStore (countryStage st r).1.store := by
  rcases countryStage_frame st r with ⟨f1, f2, f3, f4, _, _, _⟩
  rcases h with ⟨h1, h2, h3, h4⟩
  refine ⟨?_, ?_, ?_, ?_⟩
  · rw [f1]; exact h1
  · intro c hc; rw [f1] at hc; rw [f3]; exact h2 c hc
  · rw [f2]; exact h3
  · intro w hw; rw [f2] at hw; rw [f4]; exact h4 w hw

/-- The instrumentation stage preserves store well-formedness. -/
theorem instrStage_WF (st : RunState) (r : Row) (h : WFStore st.store) :
    WFStore (instrStage st r).1.store := by
  rcases instrStage_frame st r with ⟨f1, f2, f3, f4, _, _, _⟩
  rcases h with ⟨h1, h2, h3, h4⟩
  refine ⟨?_, ?_, ?_, ?_⟩
  · rw [f1]; exact h1
  · intro c hc; rw [f1] at hc; rw [f3]; exact h2 c hc
  · rw [f2]; exact h3
  · intro w hw; rw [f2] at hw; rw [f4]; exact h4 w hw

/-- The composer stage preserves store well-formedness. -/
theorem composerStage_WF (st : RunState) (r : Row) (co : Option Nat)
    (h : WFStore st.store) : WFStore (composerStage st r co).1.store := by
  rcases h with ⟨hcn, hcb, hwn, hwb⟩
  obtain ⟨gw, gnw, _⟩ := composerStage_works_frame st r co
  unfold composerStage
  unfold composerStage at gw gnw
  cases hm : st.composerCache.lookup (composerCacheKey (pyStrip r.name)
      (parseYear r.birthYearRaw) (parseYear r.deathYearRaw)) with
  | some cid =>
    rw [getOrCreateComposer_hit _ _ _ _ _ _ cid hm]
    exact ⟨hcn, hcb, hwn, hwb⟩
  | none =>
    cases hf : compFind st.store.composers (pyStrip r.name)
        (parseYear r.birthYearRaw) with
    | some c0 =>
      rcases getOrCreateComposer_found st _ _ _ co (rowDataSource r) c0 hm hf with
        ⟨_, _, hw, hnw, hnc, _, _, hdisj⟩
      refine ⟨?_, ?_, ?_, ?_⟩
      · rcases hdisj with hsame | ⟨c', hmf, hupd⟩
        · rw [hsame]; exact hcn
        · rw [hupd, updateById_map_id _ _ _ hmf.1]; exact hcn
      · intro c hc
        rw [hnc]
        rcases hdisj with hsame | ⟨c', hmf, hupd⟩
        · rw [hsame] at hc; exact hcb c hc
        · rw [hupd] at hc
          rcases List.mem_map.mp hc with ⟨x, hx, rfl⟩
          by_cases hxid : x.id = c0.id
          · simp only [if_pos hxid, hmf.1]
            exact hcb c0 (List.mem_of_find?_eq_some hf)
          · simp only [if_neg hxid]
            exact hcb x hx
      · rw [hw]; exact hwn
      · intro w hww; rw [hw] at hww; rw [hnw]; exact hwb w hww
    | none =>
      rcases getOrCreateComposer_create st _ _ _ co (rowDataSource r) hm hf with
        ⟨_, _, hw, hnw, hnc, _, _, cnew, hcid, _, _, happ⟩
      refine ⟨?_, ?_, ?_, ?_⟩
      · rw [happ, List.map_append, List.map_singleton, hcid]
        exact nodup_append_fresh _ _ hcn (by
          intro x hx
          rcases List.mem_map.mp hx with ⟨y, hy, rfl⟩
          exact hcb y hy)
      · intro c hc
        rw [hnc]
        rw [happ] at hc
        rcases List.mem_append.mp hc with hc | hc
        · exact Nat.lt_succ_of_lt (hcb c hc)
        · rcases List.mem_singleton.mp hc with rfl
          rw [hcid]
          exact Nat.lt_succ_self _
      · rw [hw]; exact hwn
      · intro w hww; rw [hw] at hww; rw [hnw]; exact hwb w hww

/-- The work stage preserves store well-formedness. -/
theorem workStage_WF (st : RunState) (r : Row) (cid : Nat) (icat : Option Nat)
    (h : WFStore st.store) : WFStore (workStage st r cid icat).store := by
  rcases h with ⟨hcn, hcb, hwn, hwb⟩
  obtain ⟨fc, fnc, _, _⟩ := workStage_frame st r cid icat
  cases hlk : workLookup st.store.works (pyStrip r.id) (rowDataSource r)
      (pyStrip r.work) cid with
  | some w0 =>
    obtain ⟨hupd, hpres, hw0mem, _, _, hnwfr, _, _, _⟩ :=
      workStage_merge st r cid icat w0 hlk
    refine ⟨?_, ?_, ?_, ?_⟩
    · rw [fc]; exact hcn
    · intro c hc; rw [fc] at hc; rw [fnc]; exact hcb c hc
    · rw [hupd, updateWById_map_id _ _ _ hpres.1]; exact hwn
    · intro w hw
      rw [hupd] at hw
      rw [hnwfr]
      rcases List.mem_map.mp hw with ⟨x, hx, rfl⟩
      by_cases hxid : x.id = w0.id
      · simp only [if_pos hxid]
        rw [hpres.1, ← hxid]
        exact hwb x hx
      · simp only [if_neg hxid]
        exact hwb x hx
  | none =>
    obtain ⟨⟨wnew, hwid, _, _, _, _, happ⟩, hnw1, _, _, _, _, _⟩ :=
      workStage_create st r cid icat hlk
    refine ⟨?_, ?_, ?_, ?_⟩
    · rw [fc]; exact hcn
    · intro c hc; rw [fc] at hc; rw [fnc]; exact hcb c hc
    · rw [happ, List.map_append, List.map_singleton, hwid]
      exact nodup_append_fresh _ _ hwn (by
        intro x hx
        rcases List.mem_map.mp hx with ⟨y, hy, rfl⟩
        exact hwb y hy)
    · intro w hw
      rw [happ] at hw
      rw [hnw1]
      rcases List.mem_append.mp hw with hc | hc
      · exact Nat.lt_succ_of_lt (hwb w hc)
      · rcases List.mem_singleton.mp hc with rfl
        rw [hwid]
        exact Nat.lt_succ_self _

/-- One processed row preserves store well-formedness. -/
theorem processRow_WF (st : RunState) (r : Row) (hwf : WFStore st.store) :
    WFStore (processRow st r).store := by
  by_cases hv : pyStrip r.name = "" ∨ pyStrip r.work = ""
  · rw [processRow_invalid st r hv]
    exact hwf
  · push_neg at hv
    rw [processRow_unfold st r hv.1 hv.2]
    exact workStage_WF _ r _ _ (instrStage_WF _ r (composerStage_WF _ r _
      (countryStage_WF st r hwf)))

/-- A whole run preserves store well-formedness. -/
theorem runRows_WF (rs : List Row) (st : RunState) (hwf : WFStore st.store) :
    WFStore (runRows rs st).store := by
  induction rs generalizing st with
  | nil => exact hwf
  | cons r rest ih => exact ih (processRow st r) (processRow_WF st r hwf)

/-- A whole run preserves every composer lookup result up to id. -/
theorem runRows_compFind (rs : List Row) (st : RunState) (n : String)
    (b : Option Int) (c : Composer) (hwf : WFStore st.store)
    (hfind : compFind st.store.composers n b = some c) :
    ∃ c', compFind (runRows rs st).store.composers n b = some c' ∧ c'.id = c.id := by
  induction rs generalizing st c with
  | nil => exact ⟨c, hfind, rfl⟩
  | cons r rest ih =>
    rcases processRow_compFind st r n b c hwf hfind with ⟨c1, h1, hid1⟩
    rcases ih (processRow st r) c1 (processRow_WF st r hwf) h1 with ⟨c2, h2, hid2⟩
    exact ⟨c2, h2, hid2.trans hid1⟩

/-- A whole run preserves every work match. -/
theorem runRows_wmatch (rs : List Row) (st : RunState) (e : String) (ds : Src)
    (t : String) (c : Nat) (hwf : WFStore st.store)
    (hex : ∃ w ∈ st.store.works, WMatch e ds t c w) :
    ∃ w ∈ (runRows rs st).store.works, WMatch e ds t c w := by
  induction rs generalizing st with
  | nil => exact hex
  | cons r rest ih =>
    exact ih (processRow st r) (processRow_WF st r hwf)
      (processRow_wmatch st r e ds t c hwf hex)

/-- Pointwise correspondence between the first run's final composer table
and the second run's current composer table: ids and lookup fields agree
position by position (the second run only fills death years and
countries). -/
def CompRel (fs bs : List Composer) : Prop := List.Forall₂ matchFields fs bs

/-- Any list corresponds to itself. -/
theorem CompRel_refl (cs : List Composer) : CompRel cs cs := by
  induction cs with
  | nil => exact List.Forall₂.nil
  | cons c cs ih => exact List.Forall₂.cons ⟨rfl, rfl, rfl⟩ ih

/-- Correspondence transports composer lookups, preserving the id. -/
theorem CompRel_find (fs bs : List Composer) (h : CompRel fs bs) (n : String)
    (b : Option Int) (c : Composer) (hfind : compFind fs n b = some c) :
    ∃ cb, compFind bs n b = some cb ∧ cb.id = c.id := by
  induction h with
  | nil => simp [compFind] at hfind
  | cons hmf hrest ih =>
    rename_i f bb fsr bsr
    unfold compFind at hfind ⊢
    rw [List.find?_cons] at hfind ⊢
    rcases hmf with ⟨hid, hname, hbirth⟩
    by_cases hp : (decide (f.fullName = n) && decide (f.birthYear = b)) = true
    · rw [hp] at hfind
      have hp' : (decide (bb.fullName = n) && decide (bb.birthYear = b)) = true := by
        rw [hname, hbirth]
        exact hp
      rw [hp']
      simp only [Option.some.injEq] at hfind
      exact ⟨bb, rfl, hid.trans (congrArg (fun x => x.id) hfind)⟩
    · have hpf : (decide (f.fullName = n) && decide (f.birthYear = b)) = false :=
        Bool.eq_false_iff.mpr hp
      have hpb : (decide (bb.fullName = n) && decide (bb.birthYear = b)) = false := by
        rw [hname, hbirth]
        exact hpf
      rw [hpf] at hfind
      rw [hpb]
      exact ih hfind

/-- Correspondence composes. -/
theorem CompRel_comp (fs bs cs : List Composer) (h1 : CompRel fs bs)
    (h2 : List.Forall₂ matchFields bs cs) : CompRel fs cs := by
  induction h1 generalizing cs with
  | nil => cases h2; exact List.Forall₂.nil
  | cons hmf hrest ih =>
    cases h2 with
    | cons hmf2 hrest2 =>
      refine List.Forall₂.cons ⟨?_, ?_, ?_⟩ (ih _ hrest2)
      · exact hmf2.1.trans hmf.1
      · exact hmf2.2.1.trans hmf.2.1
      · exact hmf2.2.2.trans hmf.2.2

/-- An id-preserving in-place update corresponds pointwise to the original
list (ids unique). -/
theorem forall₂_updateById (bs : List Composer) (c0 c' : Composer)
    (hnodup : (bs.map (fun c => c.id)).Nodup) (hc0 : c0 ∈ bs)
    (hmf : matchFields c0 c') :
    List.Forall₂ matchFields bs (updateById bs c0.id c') := by
  induction bs with
  | nil => exact List.Forall₂.nil
  | cons x xs ih =>
    rw [List.map_cons, List.nodup_cons] at hnodup
    have hxs : List.Forall₂ matchFields xs (updateById xs c0.id c') ∨ c0 = x := by
      rcases List.mem_cons.mp hc0 with h | h
      · exact Or.inr h
      · exact Or.inl (ih hnodup.2 h)
    unfold updateById
    rw [List.map_cons]
    by_cases hxid : x.id = c0.id
    · have hxc0 : x = c0 := by
        rcases List.mem_cons.mp hc0 with h | h
        · exact h.symm
        · exfalso
          apply hnodup.1
          rw [hxid]
          exact List.mem_map_of_mem _ h
      refine List.Forall₂.cons ?_ ?_
      · rw [if_pos hxid, hxc0]
        exact hmf
      · subst hxc0
        have : ∀ y ∈ xs, (if y.id = x.id then c' else y) = y := by
          intro y hy
          rw [if_neg]
          intro hyid
          apply hnodup.1
          rw [← hyid]
          exact List.mem_map_of_mem _ hy
        rw [List.map_congr_left this, List.map_id']
        exact CompRel_refl xs
    · refine List.Forall₂.cons ?_ ?_
      · rw [if_neg hxid]
        exact ⟨rfl, rfl, rfl⟩
      · rcases hxs with h | h
        · exact h
        · exfalso
          apply hxid
          rw [h]

/-- A successful work lookup returns a matching work. -/
theorem workLookup_some_wmatch (ws : List Work) (e : String) (ds : Src) (t : String)
    (c : Nat) (w : Work) (h : workLookup ws e ds t c = some w) : WMatch e ds t c w := by
  unfold workLookup at h
  rcases hx : (if e ≠ "" then
      ws.find? (fun x => decide (x.externalId = e) && decide (x.dataSource = ds))
    else none) with _ | w'
  · rw [hx] at h
    simp only [] at h
    have hp := List.find?_some h
    simp only [Bool.and_eq_true, decide_eq_true_eq] at hp
    exact Or.inr hp
  · rw [hx] at h
    simp only [Option.some.injEq] at h
    subst h
    split at hx
    · rename_i hne
      have hp := List.find?_some hx
      simp only [Bool.and_eq_true, decide_eq_true_eq] at hp
      exact Or.inl ⟨hne, hp.1, hp.2⟩
    · simp at hx

/-- When some stored work matches, the two-stage lookup succeeds. -/
theorem workLookup_some_of_wmatch (ws : List Work) (e : String) (ds : Src)
    (t : String) (c : Nat) (hex : ∃ w ∈ ws, WMatch e ds t c w) :
    ∃ w0, workLookup ws e ds t c = some w0 := by
  rcases hex with ⟨w, hw, hm⟩
  simp only [workLookup]
  rcases hx : (if e ≠ "" then
      ws.find? (fun x => decide (x.externalId = e) && decide (x.dataSource = ds))
    else none) with _ | w'
  · rw [hx]
    rcases hm with ⟨hne, hext, hds⟩ | ⟨ht', hc'⟩
    · rw [if_pos hne] at hx
      have hno := List.find?_eq_none.mp hx w hw
      exfalso
      apply hno
      simp [hext, hds]
    · cases hy : ws.find? (fun x => decide (x.title = t) && decide (x.composer = c)) with
      | some w2 => exact ⟨w2, rfl⟩
      | none =>
        have hno := List.find?_eq_none.mp hy w hw
        exfalso
        apply hno
        simp [ht', hc']
  · rw [hx]
    exact ⟨w', rfl⟩

/-- A cache hit determines the composer id the row resolves to. -/
theorem rowCid_hit (st : RunState) (r : Row) (cid : Nat)
    (hm : st.composerCache.lookup (rowCacheKey r) = some cid) :
    rowCid st r = cid := by
  unfold rowCid composerStage
  have hm' : (countryStage st r).1.composerCache.lookup
      (composerCacheKey (pyStrip r.name) (parseYear r.birthYearRaw)
        (parseYear r.deathYearRaw)) = some cid := by
    rw [(countryStage_frame st r).2.2.2.2.1]
    exact hm
  rw [getOrCreateComposer_hit _ _ _ _ _ _ cid hm']

/-- A cache miss that finds a stored composer resolves to that composer's
id. -/
theorem rowCid_found (st : RunState) (r : Row) (c : Composer)
    (hm : st.composerCache.lookup (rowCacheKey r) = none)
    (hf : compFind st.store.composers (pyStrip r.name) (parseYear r.birthYearRaw)
      = some c) :
    rowCid st r = c.id := by
  unfold rowCid composerStage
  have hm' : (countryStage st r).1.composerCache.lookup
      (composerCacheKey (pyStrip r.name) (parseYear r.birthYearRaw)
        (parseYear r.deathYearRaw)) = none := by
    rw [(countryStage_frame st r).2.2.2.2.1]
    exact hm
  have hf' : compFind (countryStage st r).1.store.composers (pyStrip r.name)
      (parseYear r.birthYearRaw) = some c := by
    rw [(countryStage_frame st r).1]
    exact hf
  exact (getOrCreateComposer_found _ _ _ _ (countryStage st r).2
    (rowDataSource r) c hm' hf').1

/-- A cache miss with no stored match resolves to the next free composer
id. -/
theorem rowCid_create (st : RunState) (r : Row)
    (hm : st.composerCache.lookup (rowCacheKey r) = none)
    (hf : compFind st.store.composers (pyStrip r.name) (parseYear r.birthYearRaw)
      = none) :
    rowCid st r = st.store.nextComposerId := by
  unfold rowCid composerStage
  have hm' : (countryStage st r).1.composerCache.lookup
      (composerCacheKey (pyStrip r.name) (parseYear r.birthYearRaw)
        (parseYear r.deathYearRaw)) = none := by
    rw [(countryStage_frame st r).2.2.2.2.1]
    exact hm
  have hf' : compFind (countryStage st r).1.store.composers (pyStrip r.name)
      (parseYear r.birthYearRaw) = none := by
    rw [(countryStage_frame st r).1]
    exact hf
  rw [(getOrCreateComposer_create _ _ _ _ (countryStage st r).2
    (rowDataSource r) hm' hf').1]
  exact (countryStage_frame st r).2.2.1

/-- Processing a valid row whose composer-cache key already hits leaves the
composer cache unchanged. -/
theorem processRow_cache_hit (st : RunState) (r : Row)
    (hn : pyStrip r.name ≠ "") (ht : pyStrip r.work ≠ "") (cid : Nat)
    (hm : st.composerCache.lookup (rowCacheKey r) = some cid) :
    (processRow st r).composerCache = st.composerCache := by
  rw [processRow_unfold st r hn ht, (workStage_frame _ _ _ _).2.2.1,
    (instrStage_frame _ _).2.2.2.2.1]
  unfold composerStage
  have hm' : (countryStage st r).1.composerCache.lookup
      (composerCacheKey (pyStrip r.name) (parseYear r.birthYearRaw)
        (parseYear r.deathYearRaw)) = some cid := by
    rw [(countryStage_frame st r).2.2.2.2.1]
    exact hm
  rw [getOrCreateComposer_hit _ _ _ _ _ _ cid hm']
  exact (countryStage_frame st r).2.2.2.2.1

/-- Processing a valid row on a composer-cache miss prepends exactly the
row's key bound to the id the row resolved to. -/
theorem processRow_cache_miss (st : RunState) (r : Row)
    (hn : pyStrip r.name ≠ "") (ht : pyStrip r.work ≠ "")
    (hm : st.composerCache.lookup (rowCacheKey r) = none) :
    (processRow st r).composerCache
      = (rowCacheKey r, rowCid st r) :: st.composerCache := by
  rw [processRow_unfold st r hn ht, (workStage_frame _ _ _ _).2.2.1,
    (instrStage_frame _ _).2.2.2.2.1]
  unfold composerStage
  have hm' : (countryStage st r).1.composerCache.lookup
      (composerCacheKey (pyStrip r.name) (parseYear r.birthYearRaw)
        (parseYear r.deathYearRaw)) = none := by
    rw [(countryStage_frame st r).2.2.2.2.1]
    exact hm
  cases hf : compFind (countryStage st r).1.store.composers (pyStrip r.name)
      (parseYear r.birthYearRaw) with
  | some c =>
    have hfst : compFind st.store.composers (pyStrip r.name)
        (parseYear r.birthYearRaw) = some c := by
      rw [← (countryStage_frame st r).1]
      exact hf
    rw [(getOrCreateComposer_found _ _ _ _ (countryStage st r).2
      (rowDataSource r) c hm' hf).2.1, (countryStage_frame st r).2.2.2.2.1,
      rowCid_found st r c hm hfst]
    exact rfl
  | none =>
    have hfst : compFind st.store.composers (pyStrip r.name)
        (parseYear r.birthYearRaw) = none := by
      rw [← (countryStage_frame st r).1]
      exact hf
    rw [(getOrCreateComposer_create _ _ _ _ (countryStage st r).2
      (rowDataSource r) hm' hf).2.1, (countryStage_frame st r).2.2.2.2.1,
      rowCid_create st r hm hfst, (countryStage_frame st r).2.2.1]
    exact rfl

/-- Composer-table effects of processing a valid row on a cache hit: no
composer row moves and no creation is counted. -/
theorem processRow_hit_effects (st : RunState) (r : Row)
    (hn : pyStrip r.name ≠ "") (ht : pyStrip r.work ≠ "") (cid : Nat)
    (hm : st.composerCache.lookup (rowCacheKey r) = some cid) :
    (processRow st r).store.composers = st.store.composers ∧
    (processRow st r).stats.composersCreated = st.stats.composersCreated := by
  have hm' : (countryStage st r).1.composerCache.lookup
      (composerCacheKey (pyStrip r.name) (parseYear r.birthYearRaw)
        (parseYear r.deathYearRaw)) = some cid := by
    rw [(countryStage_frame st r).2.2.2.2.1]
    exact hm
  constructor
  · rw [processRow_unfold st r hn ht, (workStage_frame _ _ _ _).1,
      (instrStage_frame _ _).1]
    unfold composerStage
    rw [getOrCreateComposer_hit _ _ _ _ _ _ cid hm']
    exact (countryStage_frame st r).1
  · rw [processRow_unfold st r hn ht, (workStage_frame _ _ _ _).2.2.2,
      (instrStage_frame _ _).2.2.2.2.2.1]
    unfold composerStage
    rw [getOrCreateComposer_hit _ _ _ _ _ _ cid hm']
    exact (countryStage_frame st r).2.2.2.2.2.1

/-- Composer-table effects of processing a valid row on a cache miss that
finds a stored composer: the table is unchanged or point-updated preserving
the lookup fields, and no creation is counted. -/
theorem processRow_found_effects (st : RunState) (r : Row)
    (hn : pyStrip r.name ≠ "") (ht : pyStrip r.work ≠ "") (c : Composer)
    (hm : st.composerCache.lookup (rowCacheKey r) = none)
    (hf : compFind st.store.composers (pyStrip r.name) (parseYear r.birthYearRaw)
      = some c) :
    ((processRow st r).store.composers = st.store.composers ∨
      ∃ c', matchFields c c' ∧
        (processRow st r).store.composers = updateById st.store.composers c.id c') ∧
    (processRow st r).stats.composersCreated = st.stats.composersCreated := by
  have hm' : (countryStage st r).1.composerCache.lookup
      (composerCacheKey (pyStrip r.name) (parseYear r.birthYearRaw)
        (parseYear r.deathYearRaw)) = none := by
    rw [(countryStage_frame st r).2.2.2.2.1]
    exact hm
  have hf' : compFind (countryStage st r).1.store.composers (pyStrip r.name)
      (parseYear r.birthYearRaw) = some c := by
    rw [(countryStage_frame st r).1]
    exact hf
  have h := getOrCreateComposer_found _ _ _ _ (countryStage st r).2
    (rowDataSource r) c hm' hf'
  constructor
  · rw [processRow_unfold st r hn ht, (workStage_frame _ _ _ _).1,
      (instrStage_frame _ _).1]
    unfold composerStage
    rcases h.2.2.2.2.2.2.2 with hsame | ⟨c', hmf, hupd⟩
    · left
      rw [hsame]
      exact (countryStage_frame st r).1
    · right
      refine ⟨c', hmf, ?_⟩
      rw [hupd, (countryStage_frame st r).1]
  · rw [processRow_unfold st r hn ht, (workStage_frame _ _ _ _).2.2.2,
      (instrStage_frame _ _).2.2.2.2.2.1]
    unfold composerStage
    rw [h.2.2.2.2.2.1]
    exact (countryStage_frame st r).2.2.2.2.2.1

/-- After a valid row is processed on a composer-cache miss, looking the
row's composer up in the resulting store yields the id the row resolved
to. -/
theorem processRow_own_compFind (st : RunState) (r : Row)
    (hn : pyStrip r.name ≠ "") (ht : pyStrip r.work ≠ "") (hwf : WFStore st.store)
    (hm : st.composerCache.lookup (rowCacheKey r) = none) :
    ∃ c', compFind (processRow st r).store.composers (pyStrip r.name)
      (parseYear r.birthYearRaw) = some c' ∧ c'.id = rowCid st r := by
  rw [processRow_unfold st r hn ht, (workStage_frame _ _ _ _).1,
    (instrStage_frame _ _).1]
  have hm' : (countryStage st r).1.composerCache.lookup
      (composerCacheKey (pyStrip r.name) (parseYear r.birthYearRaw)
        (parseYear r.deathYearRaw)) = none := by
    rw [(countryStage_frame st r).2.2.2.2.1]
    exact hm
  cases hf : compFind (countryStage st r).1.store.composers (pyStrip r.name)
      (parseYear r.birthYearRaw) with
  | some c =>
    have hfst : compFind st.store.composers (pyStrip r.name)
        (parseYear r.birthYearRaw) = some c := by
      rw [← (countryStage_frame st r).1]
      exact hf
    have h := getOrCreateComposer_found _ _ _ _ (countryStage st r).2
      (rowDataSource r) c hm' hf
    unfold composerStage
    rcases h.2.2.2.2.2.2.2 with hsame | ⟨c', hmf, hupd⟩
    · rw [hsame, (countryStage_frame st r).1]
      refine ⟨c, hfst, ?_⟩
      rw [rowCid_found st r c hm hfst]
    · rw [hupd, (countryStage_frame st r).1]
      have hmem : c ∈ st.store.composers := List.mem_of_find?_eq_some hfst
      rcases compFind_updateById st.store.composers c c' hwf.1 hmem hmf
        (pyStrip r.name) (parseYear r.birthYearRaw) c hfst with ⟨c'', hfind'', hid''⟩
      refine ⟨c'', hfind'', ?_⟩
      rw [hid'', rowCid_found st r c hm hfst]
  | none =>
    have hfst : compFind st.store.composers (pyStrip r.name)
        (parseYear r.birthYearRaw) = none := by
      rw [← (countryStage_frame st r).1]
      exact hf
    rcases (getOrCreateComposer_create _ _ _ _ (countryStage st r).2
      (rowDataSource r) hm' hf).2.2.2.2.2.2.2 with ⟨cnew, hid, hname, hbirth, happ⟩
    unfold composerStage
    rw [happ, (countryStage_frame st r).1]
    refine ⟨cnew, ?_, ?_⟩
    · unfold compFind at hfst ⊢
      rw [List.find?_append, hfst]
      simp [List.find?_cons, hname, hbirth]
    · rw [hid, (countryStage_frame st r).2.2.1, rowCid_create st r hm hfst]

/-- Processing a valid row leaves a work in the store matching the row's
external id, source, title and resolved composer. -/
theorem processRow_own_match (st : RunState) (r : Row)
    (hn : pyStrip r.name ≠ "") (ht : pyStrip r.work ≠ "") (hwf : WFStore st.store) :
    ∃ w ∈ (processRow st r).store.works,
      WMatch (pyStrip r.id) (rowDataSource r) (pyStrip r.work) (rowCid st r) w := by
  rw [processRow_unfold st r hn ht]
  have hworks : (instrStage (composerStage (countryStage st r).1 r
      (countryStage st r).2).1 r).1.store.works = st.store.works := by
    rw [(instrStage_frame _ _).2.1,
      (composerStage_works_frame (countryStage st r).1 r (countryStage st r).2).1,
      (countryStage_frame st r).2.1]
  cases hlk : workLookup (instrStage (composerStage (countryStage st r).1 r
      (countryStage st r).2).1 r).1.store.works (pyStrip r.id) (rowDataSource r)
      (pyStrip r.work)
      (composerStage (countryStage st r).1 r (countryStage st r).2).2 with
  | some w0 =>
    rcases workStage_merge _ r _ _ w0 hlk with ⟨hupd, hpres, hw0, _⟩
    rw [hupd, hworks]
    rw [hworks] at hw0
    have hm0 : WMatch (pyStrip r.id) (rowDataSource r) (pyStrip r.work)
        (rowCid st r) w0 := workLookup_some_wmatch _ _ _ _ _ _ hlk
    exact wmatch_updateWById st.store.works w0 _ hwf.2.2.1 hw0 hpres _ _ _ _
      ⟨w0, hw0, hm0⟩
  | none =>
    rcases workStage_create _ r _ _ hlk with
      ⟨⟨wnew, _, hwt, hwc, hwe, hws, happ⟩, _⟩
    rw [happ, hworks]
    refine ⟨wnew, List.mem_append_right _ (List.mem_singleton_self _), ?_⟩
    exact Or.inr ⟨hwt, hwc⟩

/-- When the row's work lookup over the incoming store succeeds, the work
stage merges in place: the work table is a point update preserving the
lookup fields, no creation is counted, and the table length is
unchanged. -/
theorem processRow_works_merge (st : RunState) (r : Row)
    (hn : pyStrip r.name ≠ "") (ht : pyStrip r.work ≠ "")
    (hex : ∃ w0, workLookup st.store.works (pyStrip r.id) (rowDataSource r)
      (pyStrip r.work) (rowCid st r) = some w0) :
    (∃ w0 w', (processRow st r).store.works = updateWById st.store.works w0.id w' ∧
      w0 ∈ st.store.works ∧ WPres w0 w') ∧
    (processRow st r).stats.worksCreated = st.stats.worksCreated ∧
    (processRow st r).store.works.length = st.store.works.length := by
  rcases hex with ⟨w0, hlk0⟩
  rw [processRow_unfold st r hn ht]
  have hworks : (instrStage (composerStage (countryStage st r).1 r
      (countryStage st r).2).1 r).1.store.works = st.store.works := by
    rw [(instrStage_frame _ _).2.1,
      (composerStage_works_frame (countryStage st r).1 r (countryStage st r).2).1,
      (countryStage_frame st r).2.1]
  have hlk : workLookup (instrStage (composerStage (countryStage st r).1 r
      (countryStage st r).2).1 r).1.store.works (pyStrip r.id) (rowDataSource r)
      (pyStrip r.work)
      (composerStage (countryStage st r).1 r (countryStage st r).2).2 = some w0 := by
    rw [hworks]
    exact hlk0
  rcases workStage_merge _ r _ _ w0 hlk with
    ⟨hupd, hpres, hw0, _, _, _, _, _, hwc⟩
  rw [hworks] at hw0 hupd
  refine ⟨⟨w0, _, hupd, hw0, hpres⟩, ?_, ?_⟩
  · rw [hwc, (instrStage_frame _ _).2.2.2.2.2.2,
      (composerStage_works_frame (countryStage st r).1 r (countryStage st r).2).2.2,
      (countryStage_frame st r).2.2.2.2.2.2]
  · rw [hupd]
    unfold updateWById
    rw [List.length_map]

/-- Lockstep simulation: a second pass over the same valid rows, started on
a composer cache equal to the first pass's starting cache and on a store
whose composers correspond pointwise to — and whose work matches include —
those of the first pass's final store, creates no composer and no work and
leaves both table lengths unchanged. -/
theorem runRows_lockstep (rs : List Row) : ∀ (a b : RunState),
    (∀ r ∈ rs, pyStrip r.name ≠ "" ∧ pyStrip r.work ≠ "") →
    WFStore a.store → WFStore b.store →
    a.composerCache = b.composerCache →
    CompRel (runRows rs a).store.composers b.store.composers →
    (∀ e ds t c, (∃ w ∈ (runRows rs a).store.works, WMatch e ds t c w) →
      ∃ w ∈ b.store.works, WMatch e ds t c w) →
    (runRows rs b).stats.composersCreated = b.stats.composersCreated ∧
    (runRows rs b).stats.worksCreated = b.stats.worksCreated ∧
    (runRows rs b).store.composers.length = b.store.composers.length ∧
    (runRows rs b).store.works.length = b.store.works.length := by
  induction rs with
  | nil =>
    intro a b _ _ _ _ _ _
    exact ⟨rfl, rfl, rfl, rfl⟩
  | cons r rest ih =>
    intro a b hval hawf hbwf hcache hcrel hwrel
    have hr := hval r (List.mem_cons_self r rest)
    have hrest : ∀ x ∈ rest, pyStrip x.name ≠ "" ∧ pyStrip x.work ≠ "" :=
      fun x hx => hval x (List.mem_cons_of_mem r hx)
    have hawf' : WFStore (processRow a r).store := processRow_WF a r hawf
    have hbwf' : WFStore (processRow b r).store := processRow_WF b r hbwf
    have hcrel' : CompRel (runRows rest (processRow a r)).store.composers
        b.store.composers := hcrel
    have hwrel' : ∀ e ds t c,
        (∃ w ∈ (runRows rest (processRow a r)).store.works, WMatch e ds t c w) →
        ∃ w ∈ b.store.works, WMatch e ds t c w := hwrel
    have hbmain : rowCid b r = rowCid a r ∧
        ((processRow b r).store.composers = b.store.composers ∨
          ∃ c0 c1, c0 ∈ b.store.composers ∧ matchFields c0 c1 ∧
            (processRow b r).store.composers
              = updateById b.store.composers c0.id c1) ∧
        (processRow b r).stats.composersCreated = b.stats.composersCreated ∧
        (processRow a r).composerCache = (processRow b r).composerCache := by
      cases hm : b.composerCache.lookup (rowCacheKey r) with
      | some cid =>
        have hma : a.composerCache.lookup (rowCacheKey r) = some cid := by
          rw [hcache]
          exact hm
        have hB := processRow_hit_effects b r hr.1 hr.2 cid hm
        refine ⟨?_, Or.inl hB.1, hB.2, ?_⟩
        · rw [rowCid_hit b r cid hm, rowCid_hit a r cid hma]
        · rw [processRow_cache_hit a r hr.1 hr.2 cid hma,
            processRow_cache_hit b r hr.1 hr.2 cid hm, hcache]
      | none =>
        have hma : a.composerCache.lookup (rowCacheKey r) = none := by
          rw [hcache]
          exact hm
        rcases processRow_own_compFind a r hr.1 hr.2 hawf hma with ⟨cA, hfA, hidA⟩
        rcases runRows_compFind rest (processRow a r) _ _ cA hawf' hfA with
          ⟨cF, hfF, hidF⟩
        rcases CompRel_find _ _ hcrel' _ _ cF hfF with ⟨cb, hfb, hidb⟩
        have hcid : rowCid b r = rowCid a r := by
          rw [rowCid_found b r cb hm hfb, hidb, hidF, hidA]
        have hB := processRow_found_effects b r hr.1 hr.2 cb hm hfb
        refine ⟨hcid, ?_, hB.2, ?_⟩
        · rcases hB.1 with hsame | ⟨c1, hmf, hupd⟩
          · exact Or.inl hsame
          · exact Or.inr ⟨cb, c1, List.mem_of_find?_eq_some hfb, hmf, hupd⟩
        · rw [processRow_cache_miss a r hr.1 hr.2 hma,
            processRow_cache_miss b r hr.1 hr.2 hm, hcache, hcid]
    rcases hbmain with ⟨hcid, hbcomp, hbcc, hbcache⟩
    have hmatchA := processRow_own_match a r hr.1 hr.2 hawf
    have hmatchF := runRows_wmatch rest (processRow a r) _ _ _ _ hawf' hmatchA
    have hmatchB := hwrel' _ _ _ _ hmatchF
    rw [← hcid] at hmatchB
    have hexb := workLookup_some_of_wmatch b.store.works _ _ _ _ hmatchB
    rcases processRow_works_merge b r hr.1 hr.2 hexb with
      ⟨⟨w0b, w1b, hbeq, hbmem, hbpres⟩, hbwc, hbwl⟩
    have hcrel2 : CompRel (runRows rest (processRow a r)).store.composers
        (processRow b r).store.composers := by
      rcases hbcomp with hsame | ⟨c0, c1, hc0, hmf, hupd⟩
      · rw [hsame]
        exact hcrel'
      · rw [hupd]
        exact CompRel_comp _ _ _ hcrel'
          (forall₂_updateById b.store.composers c0 c1 hbwf.1 hc0 hmf)
    have hwrel2 : ∀ e ds t c,
        (∃ w ∈ (runRows rest (processRow a r)).store.works, WMatch e ds t c w) →
        ∃ w ∈ (processRow b r).store.works, WMatch e ds t c w := by
      intro e ds t c hF
      rw [hbeq]
      exact wmatch_updateWById b.store.works w0b w1b hbwf.2.2.1 hbmem hbpres
        e ds t c (hwrel' e ds t c hF)
    have hIH := ih (processRow a r) (processRow b r) hrest hawf' hbwf' hbcache
      hcrel2 hwrel2
    have hbcl : (processRow b r).store.composers.length
        = b.store.composers.length := by
      rcases hbcomp with hsame | ⟨c0, c1, _, _, hupd⟩
      · rw [hsame]
      · rw [hupd]
        unfold updateById
        rw [List.length_map]
    exact ⟨hIH.1.trans hbcc, hIH.2.1.trans hbwc, hIH.2.2.1.trans hbcl,
      hIH.2.2.2.trans hbwl⟩

/-- Folding a row list split in two. -/
theorem runRows_append (l1 l2 : List Row) (st : RunState) :
    runRows (l1 ++ l2) st = runRows l2 (runRows l1 st) := by
  unfold runRows
  rw [List.foldl_append]

/-- With no transaction failure, batch execution is plain sequential row
processing of the concatenated batches. -/
theorem runBatchesF_noFail (bs : List (List Row)) (st : RunState) :
    runBatchesF noFail bs st = runRows bs.flatten st := by
  induction bs generalizing st with
  | nil => rfl
  | cons b bs ih =>
    show runBatchesF noFail bs (runRows b st) = runRows (b :: bs).flatten st
    rw [ih, List.flatten_cons, runRows_append]

/-- Fuelled chunking concatenates back to the original list when the fuel
covers its length. -/
theorem chunksGo_join (n : Nat) (hn : 0 < n) : ∀ (fuel : Nat) (l : List Row),
    l.length ≤ fuel → (chunksGo n fuel l).flatten = l := by
  intro fuel
  induction fuel with
  | zero =>
    intro l hl
    have : l = [] := List.eq_nil_of_length_eq_zero (Nat.le_zero.mp hl)
    subst this
    rfl
  | succ f ih =>
    intro l hl
    cases l with
    | nil => rfl
    | cons x xs =>
      have hlen : ((x :: xs).drop n).length ≤ f := by
        rw [List.length_drop]
        simp only [List.length_cons] at hl ⊢
        omega
      show (((x :: xs).take n) :: chunksGo n f ((x :: xs).drop n)).flatten = x :: xs
      rw [List.flatten_cons, ih _ hlen, List.take_append_drop]

/-- The batch decomposition concatenates back to the sorted list. -/
theorem chunks_join (rows : List Row) : (chunks rows).flatten = rows :=
  chunksGo_join 100 (by decide) rows.length rows (Nat.le_refl _)

/-- A non-dry run with no transaction failures completes and equals plain
sequential processing of the sorted row list from a fresh run state. -/
theorem runImport_noFail_ok (sheer imslp : Option (List Row)) (store : Store)
    (hne : loadRows sheer imslp ≠ []) :
    runImport false noFail sheer imslp store
      = .ok (runRows (sortRows (loadRows sheer imslp))
          { store := store, composerCache := [], countryCache := [],
            instrCache := [],
            stats := { zeroStats with
              totalRows := (sortRows (loadRows sheer imslp)).length,
              sheerRows := (sheer.getD []).length,
              imslpRows := (imslp.getD []).length } }) := by
  have hE : (loadRows sheer imslp).isEmpty = false := by
    cases h : (loadRows sheer imslp).isEmpty with
    | false => rfl
    | true => exact absurd (List.isEmpty_iff.mp h) hne
  simp only [runImport, hE, Bool.false_eq_true, if_false]
  rw [runBatchesF_noFail, chunks_join]

/-- C1: ingestion is idempotent — when every loaded row carries a non-empty
composer name and work title, a second complete run of the pipeline over the
same sources, against the store left by a completed first run, creates zero
additional composers and zero additional works, and both tables keep their
sizes: every row of the second run resolves through the composer cache or
the `(full_name, birth_year)` composer lookup and through the
`(external_id, data_source)` / `(title, composer)` work lookup to records
written by the first run. -/
theorem ingestion_idempotent (sheer imslp : Option (List Row)) (store0 : Store)
    (out1 out2 : RunState)
    (hval : ∀ r ∈ loadRows sheer imslp, pyStrip r.name ≠ "" ∧ pyStrip r.work ≠ "")
    (hwf : WFStore store0)
    (h1 : runImport false noFail sheer imslp store0 = .ok out1)
    (h2 : runImport false noFail sheer imslp out1.store = .ok out2) :
    out2.stats.composersCreated = 0 ∧ out2.stats.worksCreated = 0 ∧
    out2.store.composers.length = out1.store.composers.length ∧
    out2.store.works.length = out1.store.works.length := by
  have hne : loadRows sheer imslp ≠ [] := by
    intro hnil
    simp only [runImport] at h1
    split at h1
    · simp at h1
    · rename_i hc
      rw [hnil] at hc
      exact hc rfl
  rw [runImport_noFail_ok sheer imslp store0 hne] at h1
  rw [runImport_noFail_ok sheer imslp out1.store hne] at h2
  simp only [Except.ok.injEq] at h1 h2
  subst h1
  subst h2
  have hvalS : ∀ r ∈ sortRows (loadRows sheer imslp),
      pyStrip r.name ≠ "" ∧ pyStrip r.work ≠ "" := by
    intro r hr
    exact hval r ((sortLe_perm rowLe (loadRows sheer imslp)).mem_iff.mp hr)
  exact runRows_lockstep (sortRows (loadRows sheer imslp))
    { store := store0, composerCache := [], countryCache := [], instrCache := [],
      stats := { zeroStats with
        totalRows := (sortRows (loadRows sheer imslp)).length,
        sheerRows := (sheer.getD []).length,
        imslpRows := (imslp.getD []).length } }
    _ hvalS hwf (runRows_WF _ _ hwf) rfl (CompRel_refl _) (fun e ds t c h => h)

/-- Witness for C1: two consecutive complete runs over one concrete
well-formed Sheerpluck row; the second run creates nothing and both tables
keep their size. -/
theorem ingestion_idempotent_witness :
    (okOr (initState emptyStore) (runImport false noFail (some [rowW]) none
        ((okOr (initState emptyStore) (runImport false noFail (some [rowW]) none
          emptyStore)).store))).stats.composersCreated = 0 ∧
    (okOr (initState emptyStore) (runImport false noFail (some [rowW]) none
        ((okOr (initState emptyStore) (runImport false noFail (some [rowW]) none
          emptyStore)).store))).stats.worksCreated = 0 ∧
    (okOr (initState emptyStore) (runImport false noFail (some [rowW]) none
        ((okOr (initState emptyStore) (runImport false noFail (some [rowW]) none
          emptyStore)).store))).store.composers.length
      = (okOr (initState emptyStore) (runImport false noFail (some [rowW]) none
          emptyStore)).store.composers.length ∧
    (okOr (initState emptyStore) (runImport false noFail (some [rowW]) none
        ((okOr (initState emptyStore) (runImport false noFail (some [rowW]) none
          emptyStore)).store))).store.works.length
      = (okOr (initState emptyStore) (runImport false noFail (some [rowW]) none
          emptyStore)).store.works.length :=
  ingestion_idempotent (some [rowW]) none emptyStore
    (okOr (initState emptyStore) (runImport false noFail (some [rowW]) none
      emptyStore))
    (okOr (initState emptyStore) (runImport false noFail (some [rowW]) none
      ((okOr (initState emptyStore) (runImport false noFail (some [rowW]) none
        emptyStore)).store)))
    (by decide)
    (by refine ⟨List.nodup_nil, ?_, List.nodup_nil, ?_⟩ <;> intro x hx <;>
      exact absurd hx (List.not_mem_nil x))
    rfl rfl
